import Mathlib

set_option maxHeartbeats 1000000

/-!
Verification of the dynamic-cast feasibility classifier and the
successful-cast emitter of `lib/SIL/DynamicCasts.cpp`.

The type system is an external collaborator of that file; following the
design notes of the specification, formal types are modelled as a closed
recursive algebra (`Ty`) that exposes exactly the queries the source
consumes: optional unwrapping, archetype containment, existential test,
metatype decomposition, and class-hierarchy comparison.  A class is
identified by the path of class identifiers from itself up to its root
(its superclass chain), so `isSuperclassOf` walks that chain exactly as
the collaborator query does.
-/

/-- The recursive formal-type algebra consumed by `DynamicCasts.cpp`. -/
inductive Ty : Type where
  | cls (path : List Nat)
  | exist
  | archetype
  | metatype (isExistential : Bool) (instanceTy : Ty)
  | opt (inner : Ty)
  | other (n : Nat)
deriving DecidableEq

/-- Embedding of `CanType::getAnyOptionalObjectType`: unwrap one optional layer, if any. -/
def getAnyOptionalObjectType : Ty → Option Ty
  | .opt t => some t
  | _ => none

/-- Embedding of `TypeBase::hasArchetype`: does the type recursively contain an archetype? -/
def Ty.hasArchetype : Ty → Bool
  | .archetype => true
  | .metatype _ t => t.hasArchetype
  | .opt t => t.hasArchetype
  | _ => false

/-- Embedding of `CanType::isExistentialType`: is the type an existential at top level? -/
def isExistentialType : Ty → Bool
  | .exist => true
  | _ => false

/-- Embedding of `CanType::getClassOrBoundGenericClass`: the class a type denotes, if any. -/
def getClassOrBoundGenericClass : Ty → Option (List Nat)
  | .cls p => some p
  | _ => none

/-- The superclass-chain walk behind `TypeBase::isSuperclassOf` on class
paths: `anc` is an ancestor-or-self of `desc` iff it appears on `desc`'s
chain of successive superclasses (the tails of its path). -/
def isAncestorPath (anc desc : List Nat) : Bool :=
  if anc = desc then true
  else
    match desc with
    | [] => false
    | _ :: rest => isAncestorPath anc rest

/-- Embedding of `target->isSuperclassOf(source)`: ancestor-or-self in the class
hierarchy; false unless both types are classes. -/
def isSuperclassOf (self other : Ty) : Bool :=
  match self, other with
  | .cls anc, .cls desc => isAncestorPath anc desc
  | _, _ => false

/-- The three-valued feasibility verdict. -/
inductive DynamicCastFeasibility : Type where
  | WillSucceed
  | MaySucceed
  | WillFail
deriving DecidableEq

/-- Embedding of `weakenSuccess`: demote `WillSucceed` to `MaySucceed`, keep the rest. -/
def weakenSuccess : DynamicCastFeasibility → DynamicCastFeasibility
  | .WillSucceed => .MaySucceed
  | v => v

/-- The loop body of `getAnyMetatypeDepth`: as written in the source, the
loop peels metatype layers but never increments the carried counter. -/
def getAnyMetatypeDepthLoop (depth : Nat) : Ty → Nat
  | .metatype _ t => getAnyMetatypeDepthLoop depth t
  | _ => depth

/-- Embedding of `getAnyMetatypeDepth`, translated exactly as written: `depth` starts
at 0 and is returned after the (non-incrementing) peeling loop. -/
def getAnyMetatypeDepth (type : Ty) : Nat :=
  getAnyMetatypeDepthLoop 0 type

/-- Modelled from the spec: the *intended* metatype-nesting depth, which
counts the metatype layers (the loop of `getAnyMetatypeDepth` with the
missing increment restored).  Used only to exhibit the divergence between
the source and the specified depth comparison. -/
def getAnyMetatypeDepthSpec : Ty → Nat
  | .metatype _ t => getAnyMetatypeDepthSpec t + 1
  | _ => 0

/-- The metatype-unwrapping `while` loop of `classifyDynamicCast`
followed by its class-hierarchy comparison and final fallthrough, acting
on the already-optional-peeled, archetype/existential-free pair. -/
def classifyNonOptional : Ty → Ty → DynamicCastFeasibility
  | .metatype sEx sInst, target =>
    match target with
    | .metatype tEx tInst =>
      if sEx || tEx then
        if getAnyMetatypeDepth sInst = getAnyMetatypeDepth tInst then
          .MaySucceed
        else
          .WillFail
      else
        classifyNonOptional sInst tInst
    | _ => .WillFail
  | source, target =>
    match getClassOrBoundGenericClass source,
          getClassOrBoundGenericClass target with
    | some _, some _ =>
      if isSuperclassOf target source then .WillSucceed
      else if isSuperclassOf source target then .MaySucceed
      else .WillFail
    | _, _ => .WillFail

/-- The query `getAnyOptionalObjectType` only succeeds on an optional wrapper. -/
theorem getAnyOptionalObjectType_eq_some {t u : Ty}
    (h : getAnyOptionalObjectType t = some u) : t = Ty.opt u := by
  cases t <;> simp [getAnyOptionalObjectType] at h <;> simp [h]

theorem sizeOf_lt_of_optionalObject {t u : Ty}
    (h : getAnyOptionalObjectType t = some u) : sizeOf u < sizeOf t := by
  rw [getAnyOptionalObjectType_eq_some h]
  simp

/-- Embedding of `swift::classifyDynamicCast`, translated clause by clause from the
source (the unused `Module *` parameter is dropped). -/
def classifyDynamicCast (source target : Ty) : DynamicCastFeasibility :=
  if source = target then .WillSucceed
  else
    match h1 : getAnyOptionalObjectType source,
          h2 : getAnyOptionalObjectType target with
    | some sourceObject, some targetObject =>
      -- A common level of optionality doesn't affect the feasibility.
      classifyDynamicCast sourceObject targetObject
    | none, some targetObject =>
      -- Nor does casting to a more optional type.
      classifyDynamicCast source targetObject
    | some sourceObject, none =>
      -- Casting to a less-optional type can always fail.
      weakenSuccess (classifyDynamicCast sourceObject target)
    | none, none =>
      if source.hasArchetype || isExistentialType source
          || target.hasArchetype || isExistentialType target then
        .MaySucceed
      else
        classifyNonOptional source target
termination_by sizeOf source + sizeOf target
decreasing_by
  · have := sizeOf_lt_of_optionalObject h1
    have := sizeOf_lt_of_optionalObject h2
    omega
  · have := sizeOf_lt_of_optionalObject h2
    omega
  · have := sizeOf_lt_of_optionalObject h1
    omega

/-- Embedding of `getOptionalDepth`: number of optional layers of a formal type. -/
def getOptionalDepth : Ty → Nat
  | .opt t => getOptionalDepth t + 1
  | _ => 0

/-- Iterated optional wrapper `Opt^k(A)`: `k` optional layers around `A`. -/
def optN : Nat → Ty → Ty
  | 0, t => t
  | k + 1, t => Ty.opt (optN k t)

/-! ### Basic facts about the classifier's helper functions -/

theorem getAnyMetatypeDepthLoop_eq (depth : Nat) (t : Ty) :
    getAnyMetatypeDepthLoop depth t = depth := by
  induction t <;> simp [getAnyMetatypeDepthLoop, *]

/-- The depth counter of `getAnyMetatypeDepth` is never incremented. -/
theorem getAnyMetatypeDepth_eq_zero (t : Ty) : getAnyMetatypeDepth t = 0 :=
  getAnyMetatypeDepthLoop_eq 0 t

theorem weakenSuccess_ne_WillSucceed (v : DynamicCastFeasibility) :
    weakenSuccess v ≠ DynamicCastFeasibility.WillSucceed := by
  cases v <;> simp [weakenSuccess]

theorem weakenSuccess_idem (v : DynamicCastFeasibility) :
    weakenSuccess (weakenSuccess v) = weakenSuccess v := by
  cases v <;> rfl

theorem classify_refl (T : Ty) :
    classifyDynamicCast T T = DynamicCastFeasibility.WillSucceed := by
  rw [classifyDynamicCast]
  simp

theorem getOptionalDepth_of_none {t : Ty} (h : getAnyOptionalObjectType t = none) :
    getOptionalDepth t = 0 := by
  cases t <;> first
    | rfl
    | simp [getAnyOptionalObjectType] at h

/-! ### Ancestor paths -/

theorem isAncestorPath_length {a : List Nat} :
    ∀ {d : List Nat}, isAncestorPath a d = true → a.length ≤ d.length := by
  intro d
  induction d with
  | nil =>
    intro h
    rw [isAncestorPath.eq_def] at h
    by_cases he : a = ([] : List Nat)
    · simp [he]
    · rw [if_neg he] at h
      cases h
  | cons x rest ih =>
    intro h
    rw [isAncestorPath.eq_def] at h
    by_cases he : a = x :: rest
    · simp [he]
    · rw [if_neg he] at h
      have := ih h
      simp only [List.length_cons]
      omega

theorem isAncestorPath_length_lt {a d : List Nat}
    (h : isAncestorPath a d = true) (hne : a ≠ d) : a.length < d.length := by
  rw [isAncestorPath.eq_def, if_neg hne] at h
  cases d with
  | nil => cases h
  | cons x rest =>
    have := isAncestorPath_length h
    simp only [List.length_cons]
    omega

theorem isAncestorPath_antisymm {a d : List Nat}
    (h1 : isAncestorPath a d = true) (h2 : isAncestorPath d a = true) : a = d := by
  by_cases he : a = d
  · exact he
  · have l1 := isAncestorPath_length_lt h1 he
    have l2 := isAncestorPath_length_lt h2 (Ne.symm he)
    omega

/-! ### Classifier claims -/

/-- Claim C1 (code bug): the spec demands `WillFail` when an existential
metatype is met and the two sides' remaining metatype-nesting depths are
unequal, but the source's `getAnyMetatypeDepth` loop never increments its
counter, so the code answers `MaySucceed` even at the concrete input
whose intended remaining depths are 0 and 1. -/
theorem claim_C1_metatype_depth_divergence :
    getAnyMetatypeDepthSpec Ty.exist ≠
      getAnyMetatypeDepthSpec (Ty.metatype false (Ty.cls [0])) ∧
    classifyDynamicCast (Ty.metatype true Ty.exist)
        (Ty.metatype false (Ty.metatype false (Ty.cls [0]))) =
      DynamicCastFeasibility.MaySucceed := by
  constructor
  · decide
  · simp [classifyDynamicCast, classifyNonOptional, getAnyOptionalObjectType,
      Ty.hasArchetype, isExistentialType, getAnyMetatypeDepth,
      getAnyMetatypeDepthLoop]

/-- Claim C4: `classify(T, T) = WillSucceed` for every type `T`. -/
theorem claim_C4_reflexivity (T : Ty) :
    classifyDynamicCast T T = DynamicCastFeasibility.WillSucceed :=
  classify_refl T

/-- Claim C7: `classifyDynamicCast` is total and terminating — it is
defined as a total function in this embedding (its recursion is
well-founded), and on every input it yields one of the three verdicts. -/
theorem claim_C7_totality (source target : Ty) :
    classifyDynamicCast source target = DynamicCastFeasibility.WillSucceed ∨
    classifyDynamicCast source target = DynamicCastFeasibility.MaySucceed ∨
    classifyDynamicCast source target = DynamicCastFeasibility.WillFail := by
  cases classifyDynamicCast source target <;> simp

/-- Claim C10: `getAnyMetatypeDepth` returns 0 on every input, so when
the metatype-unwrapping loop meets an existential metatype on either
side, the depth comparison always holds and the verdict is `MaySucceed`,
never `WillFail`. -/
theorem claim_C10_depth_always_zero :
    (∀ t, getAnyMetatypeDepth t = 0) ∧
    ∀ (sEx tEx : Bool) (sInst tInst : Ty), sEx = true ∨ tEx = true →
      classifyNonOptional (Ty.metatype sEx sInst) (Ty.metatype tEx tInst) =
        DynamicCastFeasibility.MaySucceed := by
  refine ⟨getAnyMetatypeDepth_eq_zero, ?_⟩
  intro sEx tEx sInst tInst h
  have hs := getAnyMetatypeDepth_eq_zero sInst
  have ht := getAnyMetatypeDepth_eq_zero tInst
  rcases h with h | h <;> subst h <;>
    simp [classifyNonOptional, hs, ht]

theorem claim_C10_witness :
    (true = true ∨ false = true) ∧
    classifyNonOptional (Ty.metatype true Ty.exist)
        (Ty.metatype false (Ty.cls [0])) = DynamicCastFeasibility.MaySucceed :=
  ⟨Or.inl rfl,
   claim_C10_depth_always_zero.2 true false Ty.exist (Ty.cls [0]) (Or.inl rfl)⟩

/-! ### Optional peeling (C3) -/

theorem optN_not_optional_ne {A B : Ty}
    (hA : getAnyOptionalObjectType A = none) (m : Nat) :
    A ≠ optN (m + 1) B := by
  intro hEq
  rw [hEq] at hA
  simp [optN, getAnyOptionalObjectType] at hA

theorem optN_inj {A B : Ty} (hA : getAnyOptionalObjectType A = none)
    (hB : getAnyOptionalObjectType B = none) :
    ∀ k m, optN k A = optN m B ↔ (k = m ∧ A = B) := by
  intro k
  induction k with
  | zero =>
    intro m
    cases m with
    | zero => simp [optN]
    | succ m =>
      simp only [optN]
      constructor
      · intro hEq
        exact absurd hEq (optN_not_optional_ne hA m)
      · rintro ⟨h, -⟩
        omega
  | succ k ihk =>
    intro m
    cases m with
    | zero =>
      simp only [optN]
      constructor
      · intro hEq
        exact absurd hEq.symm (optN_not_optional_ne hB k)
      · rintro ⟨h, -⟩
        omega
    | succ m =>
      simp only [optN, Ty.opt.injEq]
      rw [ihk m]
      constructor
      · rintro ⟨h1, h2⟩
        exact ⟨by omega, h2⟩
      · rintro ⟨h1, h2⟩
        exact ⟨by omega, h2⟩

theorem classify_optN_target {A B : Ty}
    (hA : getAnyOptionalObjectType A = none)
    (hB : getAnyOptionalObjectType B = none) :
    ∀ m, classifyDynamicCast A (optN m B) = classifyDynamicCast A B := by
  intro m
  induction m with
  | zero => rfl
  | succ m ih =>
    rw [classifyDynamicCast]
    rw [if_neg (optN_not_optional_ne hA m)]
    split
    · next sObj tObj h1 h2 =>
      rw [hA] at h1
      cases h1
    · next tObj h1 h2 =>
      simp only [optN, getAnyOptionalObjectType, Option.some.injEq] at h2
      rw [← h2]
      exact ih
    · next sObj h1 h2 =>
      rw [hA] at h1
      cases h1
    · next h1 h2 =>
      simp only [optN, getAnyOptionalObjectType] at h2
      cases h2

theorem classify_optN {A B : Ty}
    (hA : getAnyOptionalObjectType A = none)
    (hB : getAnyOptionalObjectType B = none) :
    ∀ k m, classifyDynamicCast (optN k A) (optN m B) =
      if k ≤ m then classifyDynamicCast A B
      else weakenSuccess (classifyDynamicCast A B) := by
  intro k
  induction k with
  | zero =>
    intro m
    rw [if_pos (Nat.zero_le m)]
    simpa only [optN] using classify_optN_target hA hB m
  | succ k ihk =>
    intro m
    cases m with
    | zero =>
      rw [if_neg (by omega)]
      rw [classifyDynamicCast]
      rw [if_neg (fun hEq => optN_not_optional_ne hB k hEq.symm)]
      split
      · next sObj tObj h1 h2 =>
        simp only [optN] at h2
        rw [hB] at h2
        cases h2
      · next tObj h1 h2 =>
        simp only [optN] at h2
        rw [hB] at h2
        cases h2
      · next sObj h1 h2 =>
        simp only [optN, getAnyOptionalObjectType, Option.some.injEq] at h1
        rw [← h1, ihk 0]
        by_cases hk : k ≤ 0
        · rw [if_pos hk]
        · rw [if_neg hk, weakenSuccess_idem]
      · next h1 h2 =>
        simp only [optN, getAnyOptionalObjectType] at h1
        cases h1
    | succ m =>
      by_cases hEq : optN (k + 1) A = optN (m + 1) B
      · obtain ⟨hkm, hAB⟩ := (optN_inj hA hB _ _).mp hEq
        rw [classifyDynamicCast, if_pos hEq]
        subst hAB
        rw [classify_refl, if_pos (by omega)]
      · rw [classifyDynamicCast, if_neg hEq]
        split
        · next sObj tObj h1 h2 =>
          simp only [optN, getAnyOptionalObjectType, Option.some.injEq] at h1 h2
          rw [← h1, ← h2, ihk m]
          by_cases hk : k ≤ m
          · rw [if_pos hk, if_pos (by omega)]
          · rw [if_neg hk, if_neg (by omega)]
        · next tObj h1 h2 =>
          simp only [optN, getAnyOptionalObjectType] at h1
          cases h1
        · next sObj h1 h2 =>
          simp only [optN, getAnyOptionalObjectType] at h2
          cases h2
        · next h1 h2 =>
          simp only [optN, getAnyOptionalObjectType] at h1
          cases h1

/-- Claim C3: for non-optional `A`, `B` the verdict on `Opt^k(A) →
Opt^m(B)` is `classify(A,B)` when `k ≤ m` and its weakening when
`k > m`; in particular a `WillSucceed` pair weakens to `MaySucceed` when
the source gains one optional layer and stays `WillSucceed` when the
target does. -/
theorem claim_C3_optional_peeling (A B : Ty)
    (hA : getAnyOptionalObjectType A = none)
    (hB : getAnyOptionalObjectType B = none) :
    (∀ k m, classifyDynamicCast (optN k A) (optN m B) =
       if k ≤ m then classifyDynamicCast A B
       else weakenSuccess (classifyDynamicCast A B)) ∧
    (classifyDynamicCast A B = DynamicCastFeasibility.WillSucceed →
       classifyDynamicCast (Ty.opt A) B = DynamicCastFeasibility.MaySucceed ∧
       classifyDynamicCast A (Ty.opt B) = DynamicCastFeasibility.WillSucceed) := by
  refine ⟨classify_optN hA hB, fun hws => ⟨?_, ?_⟩⟩
  · have h10 := classify_optN hA hB 1 0
    simp only [optN] at h10
    rw [if_neg (by omega)] at h10
    rw [h10, hws]
    rfl
  · have h01 := classify_optN hA hB 0 1
    simp only [optN] at h01
    rw [if_pos (by omega)] at h01
    rw [h01, hws]

theorem claim_C3_witness :
    (getAnyOptionalObjectType (Ty.cls [0]) = none) ∧
    classifyDynamicCast (optN 2 (Ty.cls [0])) (optN 1 (Ty.cls [1, 0])) =
      (if 2 ≤ 1 then classifyDynamicCast (Ty.cls [0]) (Ty.cls [1, 0])
       else weakenSuccess (classifyDynamicCast (Ty.cls [0]) (Ty.cls [1, 0]))) :=
  ⟨rfl,
   (claim_C3_optional_peeling (Ty.cls [0]) (Ty.cls [1, 0]) rfl rfl).1 2 1⟩

/-! ### Class-hierarchy comparison (C5) -/

theorem classify_cls_cls (p q : List Nat) (hne : p ≠ q) :
    classifyDynamicCast (Ty.cls p) (Ty.cls q) =
      (if isAncestorPath q p then DynamicCastFeasibility.WillSucceed
       else if isAncestorPath p q then DynamicCastFeasibility.MaySucceed
       else DynamicCastFeasibility.WillFail) := by
  rw [classifyDynamicCast]
  rw [if_neg (by simpa using hne)]
  simp [getAnyOptionalObjectType, Ty.hasArchetype, isExistentialType,
    classifyNonOptional, getClassOrBoundGenericClass, isSuperclassOf]

/-- Claim C5: for distinct classes, an ancestor-or-self target gives
`WillSucceed`, a strict downcast gives `MaySucceed`, and unrelated
classes give `WillFail` in both directions. -/
theorem claim_C5_class_hierarchy (p q : List Nat) (hne : p ≠ q) :
    (isSuperclassOf (Ty.cls q) (Ty.cls p) = true →
       classifyDynamicCast (Ty.cls p) (Ty.cls q) =
         DynamicCastFeasibility.WillSucceed) ∧
    (isSuperclassOf (Ty.cls p) (Ty.cls q) = true →
       classifyDynamicCast (Ty.cls p) (Ty.cls q) =
         DynamicCastFeasibility.MaySucceed) ∧
    (isSuperclassOf (Ty.cls q) (Ty.cls p) = false →
      isSuperclassOf (Ty.cls p) (Ty.cls q) = false →
       classifyDynamicCast (Ty.cls p) (Ty.cls q) =
           DynamicCastFeasibility.WillFail ∧
         classifyDynamicCast (Ty.cls q) (Ty.cls p) =
           DynamicCastFeasibility.WillFail) := by
  refine ⟨?_, ?_, ?_⟩
  · intro h
    simp only [isSuperclassOf] at h
    rw [classify_cls_cls p q hne, if_pos h]
  · intro h
    simp only [isSuperclassOf] at h
    have hqp : isAncestorPath q p = false := by
      cases hc : isAncestorPath q p
      · rfl
      · exact absurd (isAncestorPath_antisymm h hc) hne
    rw [classify_cls_cls p q hne, hqp, if_neg (by simp), if_pos h]
  · intro h1 h2
    simp only [isSuperclassOf] at h1 h2
    constructor
    · rw [classify_cls_cls p q hne, h1, h2]
      simp
    · rw [classify_cls_cls q p (Ne.symm hne), h1, h2]
      simp

theorem claim_C5_witness :
    classifyDynamicCast (Ty.cls [1, 0]) (Ty.cls [0]) =
        DynamicCastFeasibility.WillSucceed ∧
    classifyDynamicCast (Ty.cls [0]) (Ty.cls [1, 0]) =
        DynamicCastFeasibility.MaySucceed ∧
    classifyDynamicCast (Ty.cls [0]) (Ty.cls [2]) =
        DynamicCastFeasibility.WillFail ∧
    classifyDynamicCast (Ty.cls [2]) (Ty.cls [0]) =
        DynamicCastFeasibility.WillFail :=
  ⟨(claim_C5_class_hierarchy [1, 0] [0] (by decide)).1 (by decide),
   (claim_C5_class_hierarchy [0] [1, 0] (by decide)).2.1 (by decide),
   ((claim_C5_class_hierarchy [0] [2] (by decide)).2.2 (by decide) (by decide)).1,
   ((claim_C5_class_hierarchy [0] [2] (by decide)).2.2 (by decide) (by decide)).2⟩

/-! ### WillSucceed never strips optionality (first half of C2) -/

theorem classify_willSucceed_depth_le_aux (n : Nat) :
    ∀ source target, sizeOf source + sizeOf target ≤ n →
      classifyDynamicCast source target = DynamicCastFeasibility.WillSucceed →
      getOptionalDepth source ≤ getOptionalDepth target := by
  induction n with
  | zero =>
    intro s t hle _
    cases s <;> simp at hle
  | succ n ih =>
    intro s t hle h
    rw [classifyDynamicCast] at h
    by_cases heq : s = t
    · subst heq
      exact Nat.le_refl _
    · rw [if_neg heq] at h
      split at h
      · next sObj tObj h1 h2 =>
        have hs := getAnyOptionalObjectType_eq_some h1
        have ht := getAnyOptionalObjectType_eq_some h2
        subst hs
        subst ht
        have hrec := ih sObj tObj (by simp at hle ⊢; omega) h
        simp only [getOptionalDepth]
        omega
      · next tObj h1 h2 =>
        have ht := getAnyOptionalObjectType_eq_some h2
        subst ht
        rw [getOptionalDepth_of_none h1]
        exact Nat.zero_le _
      · next sObj h1 h2 =>
        exact absurd h (weakenSuccess_ne_WillSucceed _)
      · next h1 h2 =>
        rw [getOptionalDepth_of_none h1, getOptionalDepth_of_none h2]

theorem classify_willSucceed_depth_le {source target : Ty}
    (h : classifyDynamicCast source target = DynamicCastFeasibility.WillSucceed) :
    getOptionalDepth source ≤ getOptionalDepth target :=
  classify_willSucceed_depth_le_aux (sizeOf source + sizeOf target) source target
    (Nat.le_refl _) h

/-!
### The SIL world consumed by the Cast Emitter

The emitter's collaborators (`SILBuilder`, `SILType`, `TypeLowering`) are
modelled by an instruction trace: every builder call appends one record
to the trace, and every fresh `SILValue`/basic block takes the next id.
C++ `assert`s are modelled as monadic internal-consistency checks that
fail the computation without emitting anything.
-/

structure SILType where
  ty : Ty
  address : Bool
deriving DecidableEq

def SILType.isAddress (t : SILType) : Bool := t.address

def SILType.getObjectType (t : SILType) : SILType := { t with address := false }

/-- Embedding of `SILType::getEnumElementType` at the optional Some payload: the
payload's lowered type (in the same address mode as the enum). -/
def SILType.getEnumElementType : SILType → SILType
  | ⟨Ty.opt t, a⟩ => ⟨t, a⟩
  | t => t

structure SILValue where
  id : Nat
  type : SILType
deriving DecidableEq

inductive CastConsumptionKind where
  | TakeAlways
  | TakeOnSuccess
  | CopyOnSuccess
deriving DecidableEq

/-- The `Source` descriptor of `DynamicCasts.cpp`. -/
structure Source where
  Value : SILValue
  FormalType : Ty
  Consumption : CastConsumptionKind
deriving DecidableEq

def Source.isAddress (s : Source) : Bool := s.Value.type.isAddress

def Source.shouldTake (s : Source) : Bool :=
  s.Consumption != CastConsumptionKind.CopyOnSuccess

/-- The `Target` descriptor of `DynamicCasts.cpp`:
`isAddress` holds exactly when `Address` is present. -/
structure Target where
  Address : Option SILValue
  LoweredType : SILType
  FormalType : Ty
deriving DecidableEq

def Target.isAddress (t : Target) : Bool := t.Address.isSome

/-- One record per `SILBuilder` construction performed by the emitter. -/
inductive Instr where
  | retainValue (v : SILValue)
  | loadOfCopy (addr : SILValue) (isTake : Bool) (result : SILValue)
  | storeOfCopy (value addr : SILValue)
  | copyInto (srcAddr destAddr : SILValue) (isTake : Bool)
  | upcast (v result : SILValue)
  | switchEnumAddr (v : SILValue) (someBB noneBB : Nat)
  | switchEnum (v : SILValue) (someBB noneBB : Nat)
  | allocStack (t : SILType) (result : SILValue)
  | deallocStack (v : SILValue)
  | copyAddr (src dest : SILValue) (isTake : Bool)
  | takeEnumDataAddr (addr result : SILValue)
  | initEnumDataAddr (addr result : SILValue)
  | injectEnumAddr (addr : SILValue) (isSome : Bool)
  | enumInst (payload : Option SILValue) (isSome : Bool) (result : SILValue)
  | blockArg (bb : Nat) (result : SILValue)
  | insertPoint (bb : Nat)
  | branch (bb : Nat) (args : List SILValue)
deriving DecidableEq

structure EmitState where
  nextValue : Nat
  nextBlock : Nat
deriving DecidableEq

/-- The emission monad: fresh-id state, internal-consistency failure,
and — as the third component of every run — the list of builder records
emitted, in order.  A failing run still reports what was emitted before
the failure. -/
def EmitM (α : Type) : Type :=
  EmitState → Except String α × EmitState × List Instr

def EmitM.pure {α : Type} (a : α) : EmitM α := fun s => (Except.ok a, s, [])

def EmitM.bind {α β : Type} (m : EmitM α) (f : α → EmitM β) : EmitM β :=
  fun s =>
    match m s with
    | (Except.ok a, s1, out1) =>
      match f a s1 with
      | (r, s2, out2) => (r, s2, out1 ++ out2)
    | (Except.error e, s1, out1) => (Except.error e, s1, out1)

instance : Monad EmitM where
  pure := EmitM.pure
  bind := EmitM.bind

@[simp] theorem EmitM_pure_run {α : Type} (a : α) (s : EmitState) :
    (Pure.pure a : EmitM α) s = (Except.ok a, s, []) := rfl

@[simp] theorem EmitM_bind_run {α β : Type} (m : EmitM α) (f : α → EmitM β)
    (s : EmitState) :
    (m >>= f) s =
      match m s with
      | (Except.ok a, s1, out1) =>
        match f a s1 with
        | (r, s2, out2) => (r, s2, out1 ++ out2)
      | (Except.error e, s1, out1) => (Except.error e, s1, out1) := rfl

theorem EmitM_bind_run_ok {α β : Type} {m : EmitM α} {f : α → EmitM β}
    {s s1 s2 : EmitState} {a : α} {r : Except String β}
    {out1 out2 : List Instr} (h1 : m s = (Except.ok a, s1, out1))
    (h2 : f a s1 = (r, s2, out2)) :
    (m >>= f) s = (r, s2, out1 ++ out2) := by
  show EmitM.bind m f s = _
  simp only [EmitM.bind, h1, h2]

theorem EmitM_bind_run_error {α β : Type} {m : EmitM α} {f : α → EmitM β}
    {s s1 : EmitState} {e : String} {out1 : List Instr}
    (h : m s = (Except.error e, s1, out1)) :
    (m >>= f) s = (Except.error e, s1, out1) := by
  show EmitM.bind m f s = _
  rw [EmitM.bind, h]

/-! Primitive builder operations. -/

def emitInstr (i : Instr) : EmitM Unit := fun s => (Except.ok (), s, [i])

def freshValue (t : SILType) : EmitM SILValue := fun s =>
  (Except.ok ⟨s.nextValue, t⟩, { s with nextValue := s.nextValue + 1 }, [])

/-- Embedding of `SILBuilder::splitBlockForFallthrough`: a fresh basic block. -/
def splitBlockForFallthrough : EmitM Nat := fun s =>
  (Except.ok s.nextBlock, { s with nextBlock := s.nextBlock + 1 }, [])

/-- A C++ `assert`: fails the emission (emitting nothing) unless `p`. -/
def check (p : Prop) [Decidable p] (msg : String) : EmitM Unit := fun s =>
  if p then (Except.ok (), s, []) else (Except.error msg, s, [])

def throwErr {α : Type} (msg : String) : EmitM α := fun s =>
  (Except.error msg, s, [])

def setInsertionPoint (bb : Nat) : EmitM Unit := emitInstr (Instr.insertPoint bb)

def emitRetainValue (v : SILValue) : EmitM Unit := emitInstr (Instr.retainValue v)

def emitLoadOfCopy (addr : SILValue) (isTake : Bool) : EmitM SILValue := do
  let v ← freshValue addr.type.getObjectType
  emitInstr (Instr.loadOfCopy addr isTake v)
  pure v

def emitStoreOfCopy (value addr : SILValue) : EmitM Unit :=
  emitInstr (Instr.storeOfCopy value addr)

def emitCopyInto (srcAddr destAddr : SILValue) (isTake : Bool) : EmitM Unit :=
  emitInstr (Instr.copyInto srcAddr destAddr isTake)

def createUpcast (v : SILValue) (t : SILType) : EmitM SILValue := do
  let r ← freshValue t
  emitInstr (Instr.upcast v r)
  pure r

def createAllocStack (t : SILType) : EmitM SILValue := do
  let r ← freshValue { t with address := true }
  emitInstr (Instr.allocStack t r)
  pure r

def createDeallocStack (v : SILValue) : EmitM Unit :=
  emitInstr (Instr.deallocStack v)

def createCopyAddr (src dest : SILValue) (isTake : Bool) : EmitM Unit :=
  emitInstr (Instr.copyAddr src dest isTake)

def createUncheckedTakeEnumDataAddr (addr : SILValue) (elemTy : SILType) :
    EmitM SILValue := do
  let r ← freshValue { elemTy with address := true }
  emitInstr (Instr.takeEnumDataAddr addr r)
  pure r

def createInitEnumDataAddr (addr : SILValue) (elemTy : SILType) :
    EmitM SILValue := do
  let r ← freshValue { elemTy with address := true }
  emitInstr (Instr.initEnumDataAddr addr r)
  pure r

def createSwitchEnumAddr (v : SILValue) (someBB noneBB : Nat) : EmitM Unit :=
  emitInstr (Instr.switchEnumAddr v someBB noneBB)

def createSwitchEnum (v : SILValue) (someBB noneBB : Nat) : EmitM Unit :=
  emitInstr (Instr.switchEnum v someBB noneBB)

def createBranch (bb : Nat) (args : List SILValue) : EmitM Unit :=
  emitInstr (Instr.branch bb args)

def createEnum (payload : Option SILValue) (isSome : Bool) (t : SILType) :
    EmitM SILValue := do
  let r ← freshValue t
  emitInstr (Instr.enumInst payload isSome r)
  pure r

def createInjectEnumAddr (addr : SILValue) (isSome : Bool) : EmitM Unit :=
  emitInstr (Instr.injectEnumAddr addr isSome)

/-- Embedding of `new (M) SILArgument(type, BB)`. -/
def createSILArgument (t : SILType) (bb : Nat) : EmitM SILValue := do
  let r ← freshValue t
  emitInstr (Instr.blockArg bb r)
  pure r

/-! Descriptor constructors and conversions, with their asserts. -/

/-- Embedding of `Target(SILValue address, CanType formalType)`. -/
def mkAddressTarget (address : SILValue) (formalType : Ty) : EmitM Target := do
  check (address.type.isAddress = true) "address Target needs an address type"
  pure ⟨some address, address.type, formalType⟩

/-- Embedding of `Target(SILType loweredType, CanType formalType)`. -/
def mkScalarTarget (loweredType : SILType) (formalType : Ty) : EmitM Target := do
  check (loweredType.isAddress = false) "scalar Target needs an object type"
  pure ⟨none, loweredType, formalType⟩

/-- Embedding of `Target::asAddressSource`. -/
def Target.asAddressSource (t : Target) : EmitM Source := fun s =>
  match t.Address with
  | some a =>
    (Except.ok ⟨a, t.FormalType, CastConsumptionKind.TakeAlways⟩, s, [])
  | none => (Except.error "asAddressSource on a scalar Target", s, [])

/-- Embedding of `Target::asScalarSource`. -/
def Target.asScalarSource (t : Target) (value : SILValue) : EmitM Source := do
  check (t.Address.isNone = true) "asScalarSource on an address Target"
  check (value.type.isAddress = false) "asScalarSource needs a scalar value"
  pure ⟨value, t.FormalType, CastConsumptionKind.TakeAlways⟩

/-! The `CastEmitter` member functions. -/

/-- Embedding of `CastEmitter::getOwnedScalar`. -/
def getOwnedScalar (source : Source) : EmitM SILValue := do
  check (source.isAddress = false) "getOwnedScalar needs a scalar source"
  if source.shouldTake then
    pure source.Value
  else do
    emitRetainValue source.Value
    pure source.Value

/-- Embedding of `CastEmitter::putOwnedScalar`. -/
def putOwnedScalar (scalar : SILValue) (target : Target) : EmitM Source := do
  check (scalar.type = target.LoweredType.getObjectType)
    "putOwnedScalar type mismatch"
  match target.Address with
  | none => Target.asScalarSource target scalar
  | some addr => do
    emitStoreOfCopy scalar addr
    Target.asAddressSource target

/-- The first step of `CastEmitter::emitSameType` (its lines "The
destination always wants a +1 value, so make the source +1 if it's a
scalar"): normalize a scalar source to an owned, take-always one. -/
def ownedScalarSource (source : Source) : EmitM Source :=
  if source.isAddress then
    pure source
  else do
    let v ← getOwnedScalar source
    pure { source with
      Value := v, Consumption := CastConsumptionKind.TakeAlways }

/-- The final address-target step of `CastEmitter::emitSameType`:
copy from an address source or store a scalar source. -/
def copyOrStoreIntoAddr (source : Source) (addr : SILValue) : EmitM Unit :=
  if source.isAddress then
    emitCopyInto source.Value addr source.shouldTake
  else
    emitStoreOfCopy source.Value addr

/-- Embedding of `CastEmitter::emitSameType`. -/
def emitSameType (source : Source) (target : Target) : EmitM Source := do
  check (source.FormalType = target.FormalType) "emitSameType type mismatch"
  let source ← ownedScalarSource source
  match target.Address with
  | none =>
    if source.isAddress then do
      -- The destination wants a non-address value: load.
      let value ← emitLoadOfCopy source.Value source.shouldTake
      Target.asScalarSource target value
    else
      -- Scalar source and scalar target: the source is exactly right.
      pure source
  | some addr => do
    copyOrStoreIntoAddr source addr
    Target.asAddressSource target

/-- Embedding of `CastEmitter::EmitSomeState`. -/
structure EmitSomeState where
  someDecl : Bool
deriving DecidableEq

/-- Embedding of `CastEmitter::prepareForEmitSome`. -/
def prepareForEmitSome (target : Target) : EmitM (Target × EmitSomeState) := do
  match getAnyOptionalObjectType target.FormalType with
  | none => throwErr "emitting Some into non-optional type"
  | some objectType => do
    let state : EmitSomeState := ⟨true⟩
    let loweredObjectType := target.LoweredType.getEnumElementType
    match target.Address with
    | some addr => do
      let objectAddr ← createInitEnumDataAddr addr loweredObjectType
      let t ← mkAddressTarget objectAddr objectType
      pure (t, state)
    | none => do
      let t ← mkScalarTarget loweredObjectType objectType
      pure (t, state)

/-- Embedding of `CastEmitter::emitSome`. -/
def emitSome (source : Source) (target : Target) (state : EmitSomeState) :
    EmitM Source := do
  match target.Address with
  | some addr => do
    createInjectEnumAddr addr state.someDecl
    Target.asAddressSource target
  | none => do
    let sourceObject ← getOwnedScalar source
    let v ← createEnum (some sourceObject) state.someDecl target.LoweredType
    Target.asScalarSource target v

/-- Embedding of `CastEmitter::emitNone`. -/
def emitNone (target : Target) : EmitM Source := do
  match getAnyOptionalObjectType target.FormalType with
  | none => throwErr "emitting None into non-optional type"
  | some _ =>
    match target.Address with
    | some addr => do
      createInjectEnumAddr addr false
      Target.asAddressSource target
    | none => do
      let v ← createEnum none false target.LoweredType
      Target.asScalarSource target v

/-- The upcast path's value materialization in `CastEmitter::emit`: load
from an address source, or take the owned scalar. -/
def loadOwnedValue (source : Source) : EmitM SILValue :=
  if source.isAddress then
    emitLoadOfCopy source.Value source.shouldTake
  else
    getOwnedScalar source

/-- The switch emission of `CastEmitter::emitOptionalToOptional`:
`switch_enum_addr` on an address source, `switch_enum` otherwise. -/
def emitSwitch (source : Source) (someBB noneBB : Nat) : EmitM Unit :=
  if source.isAddress then
    createSwitchEnumAddr source.Value someBB noneBB
  else
    createSwitchEnum source.Value someBB noneBB

/-- The Some-block source formation of
`CastEmitter::emitOptionalToOptional`: yields the scoped temporary (if
one was needed), the payload value, and its consumption kind.  An
address source that must not be taken is first copied into a freshly
allocated stack temporary. -/
def formObjectSource (source : Source) (loweredSourceObjectType : SILType)
    (someBB : Nat) :
    EmitM (Option SILValue × SILValue × CastConsumptionKind) :=
  if source.isAddress then
    if source.shouldTake then do
      let sourceAddr ← createUncheckedTakeEnumDataAddr source.Value
        loweredSourceObjectType
      pure ((none : Option SILValue), sourceAddr,
        CastConsumptionKind.TakeAlways)
    else do
      let sourceTemp ← createAllocStack source.Value.type.getObjectType
      createCopyAddr source.Value sourceTemp false
      let sourceAddr ← createUncheckedTakeEnumDataAddr sourceTemp
        loweredSourceObjectType
      pure (some sourceTemp, sourceAddr, CastConsumptionKind.TakeAlways)
  else do
    let sourceObjectValue ← createSILArgument loweredSourceObjectType someBB
    pure ((none : Option SILValue), sourceObjectValue, source.Consumption)

/-- Deallocate the source temporary if we needed one. -/
def deallocSourceTemp (sourceTemp : Option SILValue) : EmitM Unit :=
  match sourceTemp with
  | some temp => createDeallocStack temp
  | none => pure ()

/-- The branch-to-continuation step of both the Some and None blocks:
an address target carries no block argument, a scalar target passes the
branch result. -/
def branchToCont (target : Target) (contBB : Nat) (result : Source) :
    EmitM Unit :=
  match target.Address with
  | some _ => createBranch contBB []
  | none => createBranch contBB [result.Value]

/-- The continuation-block result of
`CastEmitter::emitOptionalToOptional`. -/
def emitContValue (target : Target) (contBB : Nat) : EmitM Source :=
  match target.Address with
  | some _ => Target.asAddressSource target
  | none => do
    let r ← createSILArgument target.LoweredType contBB
    Target.asScalarSource target r

mutual

/-- Embedding of `CastEmitter::emit`. -/
def emit (source : Source) (target : Target) : EmitM Source :=
  if source.FormalType = target.FormalType then
    emitSameType source target
  else
    match h : getAnyOptionalObjectType source.FormalType with
    | some sourceObjectType =>
      -- Handle subtype conversions involving optionals.
      emitOptionalToOptional source sourceObjectType target
    | none => do
      check ((getAnyOptionalObjectType target.FormalType).isNone = true)
        "non-optional source with optional target"
      -- The only other thing we return WillSucceed for currently is an
      -- upcast.
      let value ← loadOwnedValue source
      let value ← createUpcast value target.LoweredType.getObjectType
      putOwnedScalar value target
termination_by (sizeOf source.FormalType, 1)
decreasing_by
  have := sizeOf_lt_of_optionalObject h
  exact Prod.Lex.left _ _ this

/-- Embedding of `CastEmitter::emitOptionalToOptional` (the single optional flavor of
the model makes the `OptionalTypeKind` argument superfluous). -/
def emitOptionalToOptional (source : Source) (sourceObjectType : Ty)
    (target : Target) : EmitM Source := do
  -- Switch on the incoming value.
  let contBB ← splitBlockForFallthrough
  let noneBB ← splitBlockForFallthrough
  let someBB ← splitBlockForFallthrough
  emitSwitch source someBB noneBB
  -- Create the Some block, which recurses.
  setInsertionPoint someBB
  let loweredSourceObjectType := source.Value.type.getEnumElementType
  -- Form the target for the optional object.
  let (objectTarget, state) ← prepareForEmitSome target
  -- Form the source value (a scoped temporary if we must not take an
  -- address source), then recurse.
  let (sourceTemp, objectValue, objectConsumption) ←
    formObjectSource source loweredSourceObjectType someBB
  let objectSource : Source :=
    ⟨objectValue, sourceObjectType, objectConsumption⟩
  let resultObject ← emit objectSource objectTarget
  -- Deallocate the source temporary if we needed one.
  deallocSourceTemp sourceTemp
  let result ← emitSome resultObject target state
  check (result.isAddress = target.isAddress) "Some branch mode mismatch"
  branchToCont target contBB result
  -- Create the None block.
  setInsertionPoint noneBB
  let nresult ← emitNone target
  check (nresult.isAddress = target.isAddress) "None branch mode mismatch"
  branchToCont target contBB nresult
  -- Continuation block.
  setInsertionPoint contBB
  emitContValue target contBB
termination_by (sizeOf sourceObjectType, 2)
decreasing_by
  exact Prod.Lex.right _ (by omega)

end

/-- Embedding of `CastEmitter::emitAndInjectIntoOptionals`. -/
def emitAndInjectIntoOptionals (source : Source) (target : Target) :
    Nat → EmitM Source
  | 0 => emit source target
  | depth + 1 => do
    -- Recurse.
    let (objectTarget, state) ← prepareForEmitSome target
    let objectSource ← emitAndInjectIntoOptionals source objectTarget depth
    emitSome objectSource target state

/-- Embedding of `CastEmitter::emitTopLevel`. -/
def emitTopLevel (source : Source) (target : Target) : EmitM Source := do
  let sourceOptDepth := getOptionalDepth source.FormalType
  let targetOptDepth := getOptionalDepth target.FormalType
  check (sourceOptDepth ≤ targetOptDepth) "optional depth invariant"
  emitAndInjectIntoOptionals source target (targetOptDepth - sourceOptDepth)

/-- Embedding of `swift::emitSuccessfulScalarUnconditionalCast`. -/
def emitSuccessfulScalarUnconditionalCast (value : SILValue)
    (loweredTargetType : SILType) (sourceType targetType : Ty) :
    EmitM SILValue := do
  check (classifyDynamicCast sourceType targetType =
      DynamicCastFeasibility.WillSucceed)
    "emitting an unconditional cast that is not statically certain"
  -- Fast path changes that don't change the type.
  if sourceType = targetType then
    pure value
  else do
    let source : Source := ⟨value, sourceType, CastConsumptionKind.TakeAlways⟩
    let target ← mkScalarTarget loweredTargetType targetType
    let result ← emitTopLevel source target
    check (result.isAddress = false) "scalar cast produced an address"
    check (result.Value.type = loweredTargetType) "scalar cast result type"
    check (result.Consumption = CastConsumptionKind.TakeAlways)
      "scalar cast result consumption"
    pure result.Value

/-- Embedding of `swift::emitSuccessfulIndirectUnconditionalCast`. -/
def emitSuccessfulIndirectUnconditionalCast
    (consumption : CastConsumptionKind) (src : SILValue) (sourceType : Ty)
    (dest : SILValue) (targetType : Ty) : EmitM Unit := do
  check (classifyDynamicCast sourceType targetType =
      DynamicCastFeasibility.WillSucceed)
    "emitting an unconditional cast that is not statically certain"
  check (src.type.isAddress = true) "indirect cast source must be an address"
  check (dest.type.isAddress = true) "indirect cast dest must be an address"
  let source : Source := ⟨src, sourceType, consumption⟩
  let target ← mkAddressTarget dest targetType
  let result ← emitTopLevel source target
  check (result.isAddress = true) "indirect cast produced a scalar"
  check (result.Value = dest) "indirect cast result address"
  check (result.Consumption = CastConsumptionKind.TakeAlways)
    "indirect cast result consumption"
  pure ()

/-! ### Emitter claims -/

/-- Claim C6: when source and target formal types are identical, the
scalar entry point returns exactly the input value with the builder
state untouched — no instruction is emitted and no descriptor or
recursive emission is constructed. -/
theorem claim_C6_identity_fast_path (value : SILValue) (lt : SILType)
    (T : Ty) (s : EmitState) :
    emitSuccessfulScalarUnconditionalCast value lt T T s =
      (Except.ok value, s, ([] : List Instr)) := by
  rw [emitSuccessfulScalarUnconditionalCast]
  simp [check, classify_refl T, EmitM.pure]

/-- Claim C2: a `WillSucceed` verdict never strips optionality — the
source optional depth is at most the target's — and consequently, under
the `WillSucceed` precondition, `emitTopLevel`'s depth assertion passes
and it proceeds directly into the injection recursion. -/
theorem claim_C2_depth_invariant :
    (∀ S T, classifyDynamicCast S T = DynamicCastFeasibility.WillSucceed →
       getOptionalDepth S ≤ getOptionalDepth T) ∧
    ∀ (source : Source) (target : Target) (s : EmitState),
      classifyDynamicCast source.FormalType target.FormalType =
        DynamicCastFeasibility.WillSucceed →
      emitTopLevel source target s =
        emitAndInjectIntoOptionals source target
          (getOptionalDepth target.FormalType -
            getOptionalDepth source.FormalType) s := by
  refine ⟨fun S T h => classify_willSucceed_depth_le h, ?_⟩
  intro source target s h
  have hle := classify_willSucceed_depth_le h
  rw [emitTopLevel]
  simp [check, hle]

def sourceW : Source :=
  ⟨⟨0, ⟨Ty.other 0, false⟩⟩, Ty.other 0, CastConsumptionKind.TakeAlways⟩

def targetW : Target := ⟨none, ⟨Ty.other 0, false⟩, Ty.other 0⟩

def stateW : EmitState := ⟨0, 0⟩

theorem claim_C2_witness :
    getOptionalDepth (Ty.other 0) ≤ getOptionalDepth (Ty.other 0) ∧
    emitTopLevel sourceW targetW stateW =
      emitAndInjectIntoOptionals sourceW targetW 0 stateW :=
  ⟨claim_C2_depth_invariant.1 (Ty.other 0) (Ty.other 0) (classify_refl _),
   by
    have h := claim_C2_depth_invariant.2 sourceW targetW stateW
      (classify_refl _)
    simpa [sourceW, targetW, getOptionalDepth] using h⟩

theorem classify_other_willFail :
    classifyDynamicCast (Ty.other 0) (Ty.other 1) =
      DynamicCastFeasibility.WillFail := by
  rw [classifyDynamicCast]
  simp [getAnyOptionalObjectType, Ty.hasArchetype, isExistentialType,
    classifyNonOptional, getClassOrBoundGenericClass]

/-- Claim C8: both public entry points check the `WillSucceed`
precondition first, and `emitTopLevel` checks the optional-depth
invariant first; a violating call fails the internal-consistency check
with the builder state unchanged, i.e. with no code emitted. -/
theorem claim_C8_precondition_checks :
    (∀ (value : SILValue) (lt : SILType) (S T : Ty) (s : EmitState),
       classifyDynamicCast S T ≠ DynamicCastFeasibility.WillSucceed →
       ∃ e, emitSuccessfulScalarUnconditionalCast value lt S T s =
         (Except.error e, s, ([] : List Instr))) ∧
    (∀ (ck : CastConsumptionKind) (src : SILValue) (S : Ty) (dest : SILValue)
       (T : Ty) (s : EmitState),
       classifyDynamicCast S T ≠ DynamicCastFeasibility.WillSucceed →
       ∃ e, emitSuccessfulIndirectUnconditionalCast ck src S dest T s =
         (Except.error e, s, ([] : List Instr))) ∧
    ∀ (source : Source) (target : Target) (s : EmitState),
      ¬ getOptionalDepth source.FormalType ≤ getOptionalDepth target.FormalType →
      ∃ e, emitTopLevel source target s =
        (Except.error e, s, ([] : List Instr)) := by
  refine ⟨?_, ?_, ?_⟩
  · intro value lt S T s hne
    refine ⟨"emitting an unconditional cast that is not statically certain", ?_⟩
    have hc : check (classifyDynamicCast S T =
        DynamicCastFeasibility.WillSucceed)
        "emitting an unconditional cast that is not statically certain" s =
        (Except.error
          "emitting an unconditional cast that is not statically certain",
          s, ([] : List Instr)) := by
      simp [check, hne]
    rw [emitSuccessfulScalarUnconditionalCast, EmitM_bind_run_error hc]
  · intro ck src S dest T s hne
    refine ⟨"emitting an unconditional cast that is not statically certain", ?_⟩
    have hc : check (classifyDynamicCast S T =
        DynamicCastFeasibility.WillSucceed)
        "emitting an unconditional cast that is not statically certain" s =
        (Except.error
          "emitting an unconditional cast that is not statically certain",
          s, ([] : List Instr)) := by
      simp [check, hne]
    rw [emitSuccessfulIndirectUnconditionalCast, EmitM_bind_run_error hc]
  · intro source target s hne
    refine ⟨"optional depth invariant", ?_⟩
    have hc : check (getOptionalDepth source.FormalType ≤
        getOptionalDepth target.FormalType) "optional depth invariant" s =
        (Except.error "optional depth invariant", s, ([] : List Instr)) := by
      simp [check, hne]
    rw [emitTopLevel, EmitM_bind_run_error hc]

theorem claim_C8_witness :
    classifyDynamicCast (Ty.other 0) (Ty.other 1) ≠
        DynamicCastFeasibility.WillSucceed ∧
    (∃ e, emitSuccessfulScalarUnconditionalCast ⟨0, ⟨Ty.other 0, false⟩⟩
        ⟨Ty.other 1, false⟩ (Ty.other 0) (Ty.other 1) ⟨0, 0⟩ =
        (Except.error e, ⟨0, 0⟩, ([] : List Instr))) ∧
    (∃ e, emitSuccessfulIndirectUnconditionalCast
        CastConsumptionKind.TakeAlways ⟨0, ⟨Ty.other 0, true⟩⟩ (Ty.other 0)
        ⟨1, ⟨Ty.other 1, true⟩⟩ (Ty.other 1) ⟨2, 0⟩ =
        (Except.error e, ⟨2, 0⟩, ([] : List Instr))) ∧
    ¬ getOptionalDepth (Ty.opt (Ty.other 0)) ≤ getOptionalDepth (Ty.other 0) ∧
    ∃ e, emitTopLevel
        ⟨⟨0, ⟨Ty.opt (Ty.other 0), false⟩⟩, Ty.opt (Ty.other 0),
          CastConsumptionKind.TakeAlways⟩
        ⟨none, ⟨Ty.other 0, false⟩, Ty.other 0⟩ ⟨0, 0⟩ =
        (Except.error e, ⟨0, 0⟩, ([] : List Instr)) :=
  have hne : classifyDynamicCast (Ty.other 0) (Ty.other 1) ≠
      DynamicCastFeasibility.WillSucceed := by
    simp [classify_other_willFail]
  ⟨hne,
   claim_C8_precondition_checks.1 ⟨0, ⟨Ty.other 0, false⟩⟩
     ⟨Ty.other 1, false⟩ (Ty.other 0) (Ty.other 1) ⟨0, 0⟩ hne,
   claim_C8_precondition_checks.2.1 CastConsumptionKind.TakeAlways
     ⟨0, ⟨Ty.other 0, true⟩⟩ (Ty.other 0) ⟨1, ⟨Ty.other 1, true⟩⟩
     (Ty.other 1) ⟨2, 0⟩ hne,
   by decide,
   claim_C8_precondition_checks.2.2
     ⟨⟨0, ⟨Ty.opt (Ty.other 0), false⟩⟩, Ty.opt (Ty.other 0),
       CastConsumptionKind.TakeAlways⟩
     ⟨none, ⟨Ty.other 0, false⟩, Ty.other 0⟩ ⟨0, 0⟩ (by decide)⟩

/-! ### Stack-discipline accounting (C9) -/

def isAllocInstr : Instr → Bool
  | Instr.allocStack _ _ => true
  | _ => false

def isDeallocInstr : Instr → Bool
  | Instr.deallocStack _ => true
  | _ => false

def isBranchInstr : Instr → Bool
  | Instr.branch _ _ => true
  | _ => false

def allocCount (l : List Instr) : Nat := l.countP isAllocInstr

def deallocCount (l : List Instr) : Nat := l.countP isDeallocInstr

def branchCount (l : List Instr) : Nat := l.countP isBranchInstr

@[simp] theorem allocCount_nil : allocCount [] = 0 := rfl
@[simp] theorem deallocCount_nil : deallocCount [] = 0 := rfl
@[simp] theorem branchCount_nil : branchCount [] = 0 := rfl

@[simp] theorem allocCount_append (l1 l2 : List Instr) :
    allocCount (l1 ++ l2) = allocCount l1 + allocCount l2 := by
  simp [allocCount, List.countP_append]

@[simp] theorem deallocCount_append (l1 l2 : List Instr) :
    deallocCount (l1 ++ l2) = deallocCount l1 + deallocCount l2 := by
  simp [deallocCount, List.countP_append]

@[simp] theorem branchCount_append (l1 l2 : List Instr) :
    branchCount (l1 ++ l2) = branchCount l1 + branchCount l2 := by
  simp [branchCount, List.countP_append]

@[simp] theorem allocCount_cons (i : Instr) (l : List Instr) :
    allocCount (i :: l) = allocCount l + if isAllocInstr i then 1 else 0 := by
  simp [allocCount, List.countP_cons]

@[simp] theorem deallocCount_cons (i : Instr) (l : List Instr) :
    deallocCount (i :: l) =
      deallocCount l + if isDeallocInstr i then 1 else 0 := by
  simp [deallocCount, List.countP_cons]

@[simp] theorem branchCount_cons (i : Instr) (l : List Instr) :
    branchCount (i :: l) = branchCount l + if isBranchInstr i then 1 else 0 := by
  simp [branchCount, List.countP_cons]

/-- Emitted code with no stack allocation or deallocation at all. -/
def noStackP (l : List Instr) : Prop := allocCount l = 0 ∧ deallocCount l = 0

/-- Emitted code that also contains no branch terminator. -/
def cleanP (l : List Instr) : Prop :=
  allocCount l = 0 ∧ deallocCount l = 0 ∧ branchCount l = 0

theorem cleanP.noStack {l : List Instr} (h : cleanP l) : noStackP l :=
  ⟨h.1, h.2.1⟩

theorem noStackP_nil : noStackP [] := by simp [noStackP]

theorem cleanP_nil : cleanP [] := by simp [cleanP]

theorem noStackP_append {l1 l2 : List Instr} (h1 : noStackP l1)
    (h2 : noStackP l2) : noStackP (l1 ++ l2) := by
  simp [noStackP] at *
  omega

theorem cleanP_append {l1 l2 : List Instr} (h1 : cleanP l1) (h2 : cleanP l2) :
    cleanP (l1 ++ l2) := by
  simp [cleanP] at *
  omega

/-- Predicate `EmitsOnly m P`: every run of `m` (successful or failed) emits a
record list satisfying `P`. -/
def EmitsOnly {α : Type} (m : EmitM α) (P : List Instr → Prop) : Prop :=
  ∀ s, P (m s).2.2

theorem EmitsOnly_bind {α β : Type} {m : EmitM α} {f : α → EmitM β}
    {P : List Instr → Prop}
    (hPapp : ∀ l1 l2, P l1 → P l2 → P (l1 ++ l2))
    (hm : EmitsOnly m P) (hf : ∀ a, EmitsOnly (f a) P) :
    EmitsOnly (m >>= f) P := by
  intro s
  rw [EmitM_bind_run]
  rcases hms : m s with ⟨r, s1, o1⟩
  have h1 : P o1 := by have := hm s; rw [hms] at this; exact this
  cases r with
  | error e => exact h1
  | ok a =>
    rcases hfs : f a s1 with ⟨r2, s2, o2⟩
    have h2 : P o2 := by have := hf a s1; rw [hfs] at this; exact this
    simp only [hfs]
    exact hPapp o1 o2 h1 h2

theorem EmitsOnly_bind_post {α β : Type} (Q : α → Prop) {m : EmitM α}
    {f : α → EmitM β} {P : List Instr → Prop}
    (hPapp : ∀ l1 l2, P l1 → P l2 → P (l1 ++ l2))
    (hm : EmitsOnly m P)
    (hq : ∀ s a s1 o1, m s = (Except.ok a, s1, o1) → Q a)
    (hf : ∀ a, Q a → EmitsOnly (f a) P) :
    EmitsOnly (m >>= f) P := by
  intro s
  rw [EmitM_bind_run]
  rcases hms : m s with ⟨r, s1, o1⟩
  have h1 : P o1 := by have := hm s; rw [hms] at this; exact this
  cases r with
  | error e => exact h1
  | ok a =>
    rcases hfs : f a s1 with ⟨r2, s2, o2⟩
    have h2 : P o2 := by
      have := hf a (hq s a s1 o1 hms) s1
      rw [hfs] at this
      exact this
    simp only [hfs]
    exact hPapp o1 o2 h1 h2

theorem EmitsOnly_pure {α : Type} {P : List Instr → Prop} (a : α)
    (hP0 : P []) : EmitsOnly (Pure.pure a : EmitM α) P := by
  intro s
  exact hP0

theorem EmitsOnly_ite {α : Type} {P : List Instr → Prop} {c : Prop}
    [Decidable c] {m1 m2 : EmitM α} (h1 : c → EmitsOnly m1 P)
    (h2 : ¬ c → EmitsOnly m2 P) : EmitsOnly (if c then m1 else m2) P := by
  split
  · exact h1 ‹_›
  · exact h2 ‹_›

theorem EmitsOnly_emitInstr {P : List Instr → Prop} (i : Instr)
    (hi : P [i]) : EmitsOnly (emitInstr i) P := by
  intro s
  exact hi

theorem EmitsOnly_freshValue {P : List Instr → Prop} (t : SILType)
    (hP0 : P []) : EmitsOnly (freshValue t) P := by
  intro s
  exact hP0

theorem EmitsOnly_splitBlock {P : List Instr → Prop} (hP0 : P []) :
    EmitsOnly splitBlockForFallthrough P := by
  intro s
  exact hP0

theorem EmitsOnly_check {P : List Instr → Prop} (p : Prop) [Decidable p]
    (msg : String) (hP0 : P []) : EmitsOnly (check p msg) P := by
  intro s
  rw [check]
  split <;> exact hP0

theorem EmitsOnly_throwErr {α : Type} {P : List Instr → Prop} (msg : String)
    (hP0 : P []) : EmitsOnly (throwErr msg : EmitM α) P := by
  intro s
  exact hP0

theorem cleanP_singleton {i : Instr} (ha : isAllocInstr i = false)
    (hd : isDeallocInstr i = false) (hb : isBranchInstr i = false) :
    cleanP [i] := by
  simp [cleanP, ha, hd, hb]

theorem noStackP_singleton {i : Instr} (ha : isAllocInstr i = false)
    (hd : isDeallocInstr i = false) : noStackP [i] := by
  simp [noStackP, ha, hd]

theorem cleanP_app : ∀ l1 l2 : List Instr, cleanP l1 → cleanP l2 →
    cleanP (l1 ++ l2) := fun _ _ h1 h2 => cleanP_append h1 h2

theorem noStackP_app : ∀ l1 l2 : List Instr, noStackP l1 → noStackP l2 →
    noStackP (l1 ++ l2) := fun _ _ h1 h2 => noStackP_append h1 h2

theorem EmitsOnly_weaken {α : Type} {m : EmitM α} {P P' : List Instr → Prop}
    (hw : ∀ l, P l → P' l) (h : EmitsOnly m P) : EmitsOnly m P' :=
  fun s => hw _ (h s)

theorem setInsertionPoint_clean (bb : Nat) :
    EmitsOnly (setInsertionPoint bb) cleanP :=
  EmitsOnly_emitInstr _ (cleanP_singleton rfl rfl rfl)

theorem emitRetainValue_clean (v : SILValue) :
    EmitsOnly (emitRetainValue v) cleanP :=
  EmitsOnly_emitInstr _ (cleanP_singleton rfl rfl rfl)

theorem emitLoadOfCopy_clean (addr : SILValue) (tk : Bool) :
    EmitsOnly (emitLoadOfCopy addr tk) cleanP := by
  rw [emitLoadOfCopy]
  refine EmitsOnly_bind cleanP_app (EmitsOnly_freshValue _ cleanP_nil) fun v => ?_
  refine EmitsOnly_bind cleanP_app
    (EmitsOnly_emitInstr _ (cleanP_singleton rfl rfl rfl)) fun _ => ?_
  exact EmitsOnly_pure _ cleanP_nil

theorem emitStoreOfCopy_clean (value addr : SILValue) :
    EmitsOnly (emitStoreOfCopy value addr) cleanP :=
  EmitsOnly_emitInstr _ (cleanP_singleton rfl rfl rfl)

theorem emitCopyInto_clean (srcAddr destAddr : SILValue) (tk : Bool) :
    EmitsOnly (emitCopyInto srcAddr destAddr tk) cleanP :=
  EmitsOnly_emitInstr _ (cleanP_singleton rfl rfl rfl)

theorem createUpcast_clean (v : SILValue) (t : SILType) :
    EmitsOnly (createUpcast v t) cleanP := by
  rw [createUpcast]
  refine EmitsOnly_bind cleanP_app (EmitsOnly_freshValue _ cleanP_nil) fun r => ?_
  refine EmitsOnly_bind cleanP_app
    (EmitsOnly_emitInstr _ (cleanP_singleton rfl rfl rfl)) fun _ => ?_
  exact EmitsOnly_pure _ cleanP_nil

theorem createCopyAddr_clean (src dest : SILValue) (tk : Bool) :
    EmitsOnly (createCopyAddr src dest tk) cleanP :=
  EmitsOnly_emitInstr _ (cleanP_singleton rfl rfl rfl)

theorem createUncheckedTakeEnumDataAddr_clean (addr : SILValue)
    (elemTy : SILType) :
    EmitsOnly (createUncheckedTakeEnumDataAddr addr elemTy) cleanP := by
  rw [createUncheckedTakeEnumDataAddr]
  refine EmitsOnly_bind cleanP_app (EmitsOnly_freshValue _ cleanP_nil) fun r => ?_
  refine EmitsOnly_bind cleanP_app
    (EmitsOnly_emitInstr _ (cleanP_singleton rfl rfl rfl)) fun _ => ?_
  exact EmitsOnly_pure _ cleanP_nil

theorem createInitEnumDataAddr_clean (addr : SILValue) (elemTy : SILType) :
    EmitsOnly (createInitEnumDataAddr addr elemTy) cleanP := by
  rw [createInitEnumDataAddr]
  refine EmitsOnly_bind cleanP_app (EmitsOnly_freshValue _ cleanP_nil) fun r => ?_
  refine EmitsOnly_bind cleanP_app
    (EmitsOnly_emitInstr _ (cleanP_singleton rfl rfl rfl)) fun _ => ?_
  exact EmitsOnly_pure _ cleanP_nil

theorem createSwitchEnumAddr_clean (v : SILValue) (someBB noneBB : Nat) :
    EmitsOnly (createSwitchEnumAddr v someBB noneBB) cleanP :=
  EmitsOnly_emitInstr _ (cleanP_singleton rfl rfl rfl)

theorem createSwitchEnum_clean (v : SILValue) (someBB noneBB : Nat) :
    EmitsOnly (createSwitchEnum v someBB noneBB) cleanP :=
  EmitsOnly_emitInstr _ (cleanP_singleton rfl rfl rfl)

theorem createBranch_noStack (bb : Nat) (args : List SILValue) :
    EmitsOnly (createBranch bb args) noStackP :=
  EmitsOnly_emitInstr _ (noStackP_singleton rfl rfl)

theorem createEnum_clean (payload : Option SILValue) (isSome : Bool)
    (t : SILType) : EmitsOnly (createEnum payload isSome t) cleanP := by
  rw [createEnum]
  refine EmitsOnly_bind cleanP_app (EmitsOnly_freshValue _ cleanP_nil) fun r => ?_
  refine EmitsOnly_bind cleanP_app
    (EmitsOnly_emitInstr _ (cleanP_singleton rfl rfl rfl)) fun _ => ?_
  exact EmitsOnly_pure _ cleanP_nil

theorem createInjectEnumAddr_clean (addr : SILValue) (isSome : Bool) :
    EmitsOnly (createInjectEnumAddr addr isSome) cleanP :=
  EmitsOnly_emitInstr _ (cleanP_singleton rfl rfl rfl)

theorem createSILArgument_clean (t : SILType) (bb : Nat) :
    EmitsOnly (createSILArgument t bb) cleanP := by
  rw [createSILArgument]
  refine EmitsOnly_bind cleanP_app (EmitsOnly_freshValue _ cleanP_nil) fun r => ?_
  refine EmitsOnly_bind cleanP_app
    (EmitsOnly_emitInstr _ (cleanP_singleton rfl rfl rfl)) fun _ => ?_
  exact EmitsOnly_pure _ cleanP_nil

theorem mkAddressTarget_clean (address : SILValue) (formalType : Ty) :
    EmitsOnly (mkAddressTarget address formalType) cleanP := by
  rw [mkAddressTarget]
  refine EmitsOnly_bind cleanP_app (EmitsOnly_check _ _ cleanP_nil) fun _ => ?_
  exact EmitsOnly_pure _ cleanP_nil

theorem mkScalarTarget_clean (loweredType : SILType) (formalType : Ty) :
    EmitsOnly (mkScalarTarget loweredType formalType) cleanP := by
  rw [mkScalarTarget]
  refine EmitsOnly_bind cleanP_app (EmitsOnly_check _ _ cleanP_nil) fun _ => ?_
  exact EmitsOnly_pure _ cleanP_nil

theorem asAddressSource_clean (t : Target) :
    EmitsOnly (Target.asAddressSource t) cleanP := by
  intro s
  rw [Target.asAddressSource]
  cases t.Address <;> exact cleanP_nil

theorem asScalarSource_clean (t : Target) (value : SILValue) :
    EmitsOnly (Target.asScalarSource t value) cleanP := by
  rw [Target.asScalarSource]
  refine EmitsOnly_bind cleanP_app (EmitsOnly_check _ _ cleanP_nil) fun _ => ?_
  refine EmitsOnly_bind cleanP_app (EmitsOnly_check _ _ cleanP_nil) fun _ => ?_
  exact EmitsOnly_pure _ cleanP_nil

theorem getOwnedScalar_clean (source : Source) :
    EmitsOnly (getOwnedScalar source) cleanP := by
  rw [getOwnedScalar]
  refine EmitsOnly_bind cleanP_app (EmitsOnly_check _ _ cleanP_nil) fun _ => ?_
  refine EmitsOnly_ite (fun _ => EmitsOnly_pure _ cleanP_nil) fun _ => ?_
  refine EmitsOnly_bind cleanP_app (emitRetainValue_clean _) fun _ => ?_
  exact EmitsOnly_pure _ cleanP_nil

theorem putOwnedScalar_clean (scalar : SILValue) (target : Target) :
    EmitsOnly (putOwnedScalar scalar target) cleanP := by
  rw [putOwnedScalar]
  refine EmitsOnly_bind cleanP_app (EmitsOnly_check _ _ cleanP_nil) fun _ => ?_
  cases target.Address with
  | none => exact asScalarSource_clean _ _
  | some addr =>
    refine EmitsOnly_bind cleanP_app (emitStoreOfCopy_clean _ _) fun _ => ?_
    exact asAddressSource_clean _

theorem ownedScalarSource_clean (source : Source) :
    EmitsOnly (ownedScalarSource source) cleanP := by
  rw [ownedScalarSource]
  refine EmitsOnly_ite (fun _ => EmitsOnly_pure _ cleanP_nil) fun _ => ?_
  refine EmitsOnly_bind cleanP_app (getOwnedScalar_clean _) fun v => ?_
  exact EmitsOnly_pure _ cleanP_nil

theorem copyOrStoreIntoAddr_clean (source : Source) (addr : SILValue) :
    EmitsOnly (copyOrStoreIntoAddr source addr) cleanP := by
  rw [copyOrStoreIntoAddr]
  exact EmitsOnly_ite (fun _ => emitCopyInto_clean _ _ _)
    fun _ => emitStoreOfCopy_clean _ _

theorem emitSameType_clean (source : Source) (target : Target) :
    EmitsOnly (emitSameType source target) cleanP := by
  rw [emitSameType]
  refine EmitsOnly_bind cleanP_app (EmitsOnly_check _ _ cleanP_nil) fun _ => ?_
  refine EmitsOnly_bind cleanP_app (ownedScalarSource_clean _) fun src2 => ?_
  cases target.Address with
  | none =>
    refine EmitsOnly_ite (fun _ => ?_) fun _ => EmitsOnly_pure _ cleanP_nil
    refine EmitsOnly_bind cleanP_app (emitLoadOfCopy_clean _ _) fun v => ?_
    exact asScalarSource_clean _ _
  | some addr =>
    refine EmitsOnly_bind cleanP_app (copyOrStoreIntoAddr_clean _ _)
      fun _ => ?_
    exact asAddressSource_clean _

theorem prepareForEmitSome_clean (target : Target) :
    EmitsOnly (prepareForEmitSome target) cleanP := by
  rw [prepareForEmitSome]
  cases getAnyOptionalObjectType target.FormalType with
  | none => exact EmitsOnly_throwErr _ cleanP_nil
  | some objectType =>
    cases target.Address with
    | some addr =>
      refine EmitsOnly_bind cleanP_app (createInitEnumDataAddr_clean _ _)
        fun objectAddr => ?_
      refine EmitsOnly_bind cleanP_app (mkAddressTarget_clean _ _) fun t => ?_
      exact EmitsOnly_pure _ cleanP_nil
    | none =>
      refine EmitsOnly_bind cleanP_app (mkScalarTarget_clean _ _) fun t => ?_
      exact EmitsOnly_pure _ cleanP_nil

theorem emitSome_clean (source : Source) (target : Target)
    (state : EmitSomeState) : EmitsOnly (emitSome source target state) cleanP := by
  rw [emitSome]
  cases target.Address with
  | some addr =>
    refine EmitsOnly_bind cleanP_app (createInjectEnumAddr_clean _ _) fun _ => ?_
    exact asAddressSource_clean _
  | none =>
    refine EmitsOnly_bind cleanP_app (getOwnedScalar_clean _) fun so => ?_
    refine EmitsOnly_bind cleanP_app (createEnum_clean _ _ _) fun v => ?_
    exact asScalarSource_clean _ _

theorem emitNone_clean (target : Target) :
    EmitsOnly (emitNone target) cleanP := by
  rw [emitNone]
  cases getAnyOptionalObjectType target.FormalType with
  | none => exact EmitsOnly_throwErr _ cleanP_nil
  | some objectType =>
    cases target.Address with
    | some addr =>
      refine EmitsOnly_bind cleanP_app (createInjectEnumAddr_clean _ _)
        fun _ => ?_
      exact asAddressSource_clean _
    | none =>
      refine EmitsOnly_bind cleanP_app (createEnum_clean _ _ _) fun v => ?_
      exact asScalarSource_clean _ _

theorem EmitsOnly_clean_noStack {α : Type} {m : EmitM α}
    (h : EmitsOnly m cleanP) : EmitsOnly m noStackP :=
  EmitsOnly_weaken (fun _ hl => hl.noStack) h

theorem shouldTake_true_iff (src : Source) :
    src.shouldTake = true ↔
      src.Consumption ≠ CastConsumptionKind.CopyOnSuccess := by
  cases h : src.Consumption <;> simp [Source.shouldTake, h]

theorem getEnumElementType_address (t : SILType) :
    (SILType.getEnumElementType t).address = t.address := by
  rcases t with ⟨ty, a⟩
  cases ty <;> rfl

theorem loadOwnedValue_clean (source : Source) :
    EmitsOnly (loadOwnedValue source) cleanP := by
  rw [loadOwnedValue]
  exact EmitsOnly_ite (fun _ => emitLoadOfCopy_clean _ _)
    fun _ => getOwnedScalar_clean _

theorem emitSwitch_clean (source : Source) (someBB noneBB : Nat) :
    EmitsOnly (emitSwitch source someBB noneBB) cleanP := by
  rw [emitSwitch]
  exact EmitsOnly_ite (fun _ => createSwitchEnumAddr_clean _ _ _)
    fun _ => createSwitchEnum_clean _ _ _

theorem branchToCont_noStack (target : Target) (contBB : Nat)
    (result : Source) : EmitsOnly (branchToCont target contBB result) noStackP := by
  rw [branchToCont]
  cases target.Address <;> exact createBranch_noStack _ _

theorem emitContValue_clean (target : Target) (contBB : Nat) :
    EmitsOnly (emitContValue target contBB) cleanP := by
  rw [emitContValue]
  cases target.Address with
  | some a => exact asAddressSource_clean _
  | none =>
    refine EmitsOnly_bind cleanP_app (createSILArgument_clean _ _) fun r => ?_
    exact asScalarSource_clean _ _

theorem formObjectSource_noStack (src : Source) (lot : SILType) (bb : Nat)
    (hsafe : src.isAddress = false ∨ src.shouldTake = true) :
    EmitsOnly (formObjectSource src lot bb) noStackP := by
  rw [formObjectSource]
  refine EmitsOnly_ite (fun haddr => ?_) fun haddr => ?_
  · refine EmitsOnly_ite (fun htake => ?_) fun htake => ?_
    · refine EmitsOnly_bind noStackP_app
        (EmitsOnly_clean_noStack (createUncheckedTakeEnumDataAddr_clean _ _))
        fun r => ?_
      exact EmitsOnly_pure _ noStackP_nil
    · rcases hsafe with h | h
      · rw [h] at haddr
        cases haddr
      · exact absurd h htake
  · refine EmitsOnly_bind noStackP_app
      (EmitsOnly_clean_noStack (createSILArgument_clean _ _)) fun r => ?_
    exact EmitsOnly_pure _ noStackP_nil

theorem formObjectSource_post (src : Source) (lot : SILType) (bb : Nat)
    (hsafe : src.isAddress = false ∨ src.shouldTake = true)
    (hlot : src.isAddress = false → lot.isAddress = false) :
    ∀ s a s1 o1, formObjectSource src lot bb s = (Except.ok a, s1, o1) →
      a.1 = (none : Option SILValue) ∧
      (a.2.1.type.isAddress = false ∨
        a.2.2 ≠ CastConsumptionKind.CopyOnSuccess) := by
  intro s a s1 o1 h
  rw [formObjectSource] at h
  by_cases haddr : src.isAddress = true
  · rw [if_pos haddr] at h
    have htake : src.shouldTake = true := by
      rcases hsafe with h2 | h2
      · rw [h2] at haddr
        cases haddr
      · exact h2
    rw [if_pos htake] at h
    simp [EmitM.bind, EmitM.pure, createUncheckedTakeEnumDataAddr,
      freshValue, emitInstr] at h
    obtain ⟨ha, -, -⟩ := h
    rw [← ha]
    exact ⟨rfl, Or.inr (by simp)⟩
  · rw [if_neg haddr] at h
    simp [EmitM.bind, EmitM.pure, createSILArgument,
      freshValue, emitInstr] at h
    obtain ⟨ha, -, -⟩ := h
    rw [← ha]
    refine ⟨rfl, Or.inl ?_⟩
    exact hlot (by simpa using haddr)

theorem emitOptionalToOptional_noStack (src : Source) (objTy : Ty)
    (tgt : Target) (hsafe : src.isAddress = false ∨ src.shouldTake = true)
    (hinner : ∀ (os : Source) (T2 : Target), os.FormalType = objTy →
        (os.isAddress = false ∨ os.shouldTake = true) →
        EmitsOnly (emit os T2) noStackP) :
    EmitsOnly (emitOptionalToOptional src objTy tgt) noStackP := by
  rw [emitOptionalToOptional]
  refine EmitsOnly_bind noStackP_app (EmitsOnly_splitBlock noStackP_nil)
    fun contBB => ?_
  refine EmitsOnly_bind noStackP_app (EmitsOnly_splitBlock noStackP_nil)
    fun noneBB => ?_
  refine EmitsOnly_bind noStackP_app (EmitsOnly_splitBlock noStackP_nil)
    fun someBB => ?_
  refine EmitsOnly_bind noStackP_app
    (EmitsOnly_clean_noStack (emitSwitch_clean _ _ _)) fun _ => ?_
  refine EmitsOnly_bind noStackP_app
    (EmitsOnly_clean_noStack (setInsertionPoint_clean _)) fun _ => ?_
  refine EmitsOnly_bind noStackP_app
    (EmitsOnly_clean_noStack (prepareForEmitSome_clean _)) fun ots => ?_
  obtain ⟨objectTarget, state⟩ := ots
  refine EmitsOnly_bind_post
    (fun a => a.1 = (none : Option SILValue) ∧
      (a.2.1.type.isAddress = false ∨
        a.2.2 ≠ CastConsumptionKind.CopyOnSuccess))
    noStackP_app
    (formObjectSource_noStack src _ _ hsafe)
    (formObjectSource_post src _ _ hsafe fun hs => by
      rw [SILType.isAddress, getEnumElementType_address]
      exact hs)
    ?_
  rintro ⟨sourceTemp, objectValue, objectConsumption⟩ ⟨h1, h2⟩
  simp only at h1 h2
  subst h1
  refine EmitsOnly_bind noStackP_app
    (hinner ⟨objectValue, objTy, objectConsumption⟩ objectTarget rfl ?_)
    fun resultObject => ?_
  · rcases h2 with h2 | h2
    · exact Or.inl h2
    · exact Or.inr ((shouldTake_true_iff _).mpr h2)
  refine EmitsOnly_bind noStackP_app (fun s => noStackP_nil) fun _ => ?_
  refine EmitsOnly_bind noStackP_app
    (EmitsOnly_clean_noStack (emitSome_clean _ _ _)) fun result => ?_
  refine EmitsOnly_bind noStackP_app (EmitsOnly_check _ _ noStackP_nil)
    fun _ => ?_
  refine EmitsOnly_bind noStackP_app (branchToCont_noStack _ _ _) fun _ => ?_
  refine EmitsOnly_bind noStackP_app
    (EmitsOnly_clean_noStack (setInsertionPoint_clean _)) fun _ => ?_
  refine EmitsOnly_bind noStackP_app
    (EmitsOnly_clean_noStack (emitNone_clean _)) fun nresult => ?_
  refine EmitsOnly_bind noStackP_app (EmitsOnly_check _ _ noStackP_nil)
    fun _ => ?_
  refine EmitsOnly_bind noStackP_app (branchToCont_noStack _ _ _) fun _ => ?_
  refine EmitsOnly_bind noStackP_app
    (EmitsOnly_clean_noStack (setInsertionPoint_clean _)) fun _ => ?_
  exact EmitsOnly_clean_noStack (emitContValue_clean _ _)

theorem emit_noStack_aux (n : Nat) :
    ∀ (src : Source) (tgt : Target), sizeOf src.FormalType ≤ n →
      (src.isAddress = false ∨ src.shouldTake = true) →
      EmitsOnly (emit src tgt) noStackP := by
  induction n with
  | zero =>
    intro src tgt hle _
    have h1 : 0 < sizeOf src.FormalType := by
      cases src.FormalType <;> simp
    omega
  | succ n ih =>
    intro src tgt hle hsafe
    rw [emit]
    refine EmitsOnly_ite
      (fun _ => EmitsOnly_clean_noStack (emitSameType_clean _ _)) fun _ => ?_
    split
    · next objTy heq =>
      refine emitOptionalToOptional_noStack src objTy tgt hsafe ?_
      intro os T2 hft hsafe2
      refine ih os T2 ?_ hsafe2
      have hlt := sizeOf_lt_of_optionalObject heq
      rw [hft]
      omega
    · next heq =>
      refine EmitsOnly_bind noStackP_app (EmitsOnly_check _ _ noStackP_nil)
        fun _ => ?_
      refine EmitsOnly_bind noStackP_app
        (EmitsOnly_clean_noStack (loadOwnedValue_clean _)) fun v => ?_
      refine EmitsOnly_bind noStackP_app
        (EmitsOnly_clean_noStack (createUpcast_clean _ _)) fun v2 => ?_
      exact EmitsOnly_clean_noStack (putOwnedScalar_clean _ _)

/-- Every run of `CastEmitter::emit` from a source that is scalar or
take-always emits no stack allocation and no stack deallocation. -/
theorem emit_noStack (src : Source) (tgt : Target)
    (hsafe : src.isAddress = false ∨ src.shouldTake = true) :
    EmitsOnly (emit src tgt) noStackP :=
  emit_noStack_aux (sizeOf src.FormalType) src tgt (Nat.le_refl _) hsafe

theorem bind_run_ok_decomp {α β : Type} {m : EmitM α} {f : α → EmitM β}
    {s s' : EmitState} {r : β} {out : List Instr}
    (h : (m >>= f) s = (Except.ok r, s', out)) :
    ∃ a s1 o1 o2, m s = (Except.ok a, s1, o1) ∧
      f a s1 = (Except.ok r, s', o2) ∧ out = o1 ++ o2 := by
  have hb : EmitM.bind m f s = (Except.ok r, s', out) := h
  rw [EmitM.bind] at hb
  rcases hms : m s with ⟨rm, s1, o1⟩
  rw [hms] at hb
  cases rm with
  | error e =>
    have hb2 : (Except.error e, s1, o1) =
        ((Except.ok r : Except String β), s', out) := hb
    injection hb2 with h1 h2
    exact Except.noConfusion h1
  | ok a =>
    have hb2 : (match f a s1 with
        | (r2, s2, out2) => ((r2 : Except String β), s2, o1 ++ out2)) =
        ((Except.ok r : Except String β), s', out) := hb
    rcases hfs : f a s1 with ⟨rf, s2, o2⟩
    rw [hfs] at hb2
    have hb3 : ((rf : Except String β), s2, o1 ++ o2) =
        ((Except.ok r : Except String β), s', out) := hb2
    injection hb3 with h1 h2
    injection h2 with h3 h4
    subst h3
    exact ⟨a, s1, o1, o2, rfl, by rw [hfs, h1], h4.symm⟩

theorem check_run_ok {p : Prop} [Decidable p] {msg : String} {s s1 : EmitState}
    {u : Unit} {o : List Instr}
    (h : check p msg s = (Except.ok u, s1, o)) : s1 = s ∧ o = [] := by
  rw [check] at h
  split at h
  · injection h with h1 h2
    injection h2 with h3 h4
    exact ⟨h3.symm, h4.symm⟩
  · injection h with h1 h2
    exact Except.noConfusion h1

theorem branchToCont_run (target : Target) (contBB : Nat) (result : Source)
    (s : EmitState) : ∃ args, branchToCont target contBB result s =
      (Except.ok (), s, [Instr.branch contBB args]) := by
  rw [branchToCont]
  cases target.Address <;> exact ⟨_, rfl⟩

theorem splitBlock_run (s : EmitState) :
    splitBlockForFallthrough s =
      (Except.ok s.nextBlock, { s with nextBlock := s.nextBlock + 1 }, []) :=
  rfl

theorem setInsertionPoint_run (bb : Nat) (s : EmitState) :
    setInsertionPoint bb s = (Except.ok (), s, [Instr.insertPoint bb]) := rfl

theorem emitSwitchAddr_run (src : Source) (someBB noneBB : Nat)
    (haddr : src.isAddress = true) (s : EmitState) :
    emitSwitch src someBB noneBB s =
      (Except.ok (), s, [Instr.switchEnumAddr src.Value someBB noneBB]) := by
  rw [emitSwitch, if_pos haddr]
  rfl

theorem deallocSourceTemp_some_run (v : SILValue) (s : EmitState) :
    deallocSourceTemp (some v) s =
      (Except.ok (), s, [Instr.deallocStack v]) := rfl

theorem formObjectSource_copy_run (src : Source) (lot : SILType) (bb : Nat)
    (haddr : src.isAddress = true) (htake : src.shouldTake = false)
    (s : EmitState) :
    formObjectSource src lot bb s =
      (Except.ok (some ⟨s.nextValue, ⟨src.Value.type.ty, true⟩⟩,
        ⟨s.nextValue + 1, ⟨lot.ty, true⟩⟩, CastConsumptionKind.TakeAlways),
       { s with nextValue := s.nextValue + 2 },
       [Instr.allocStack src.Value.type.getObjectType
          ⟨s.nextValue, ⟨src.Value.type.ty, true⟩⟩,
        Instr.copyAddr src.Value ⟨s.nextValue, ⟨src.Value.type.ty, true⟩⟩
          false,
        Instr.takeEnumDataAddr ⟨s.nextValue, ⟨src.Value.type.ty, true⟩⟩
          ⟨s.nextValue + 1, ⟨lot.ty, true⟩⟩]) := by
  rw [formObjectSource, if_pos haddr, if_neg (by simp [htake])]
  simp [createAllocStack, createCopyAddr, createUncheckedTakeEnumDataAddr,
    freshValue, emitInstr, EmitM.bind, EmitM.pure, SILType.getObjectType]

/-- Claim C9: in a successful run of the present branch of
`emitOptionalToOptional`, a scoped stack temporary is allocated exactly
when the source is address-represented with copy-on-success consumption
(otherwise the run performs no stack allocation or deallocation at all);
when allocated, the single deallocation follows the recursive payload
conversion `Δrec` and precedes the branch to the continuation block
(`s.nextBlock`, the first block split), with only the branch-free
Some-injection code `Δsome` in between — so the allocation is paired
with exactly one deallocation on the path that allocated it. -/
theorem claim_C9_scoped_temporary (src : Source) (objTy : Ty) (tgt : Target)
    (s : EmitState) (r : Source) (s' : EmitState) (Δ : List Instr)
    (hrun : emitOptionalToOptional src objTy tgt s = (Except.ok r, s', Δ)) :
    (¬ (src.isAddress = true ∧
        src.Consumption = CastConsumptionKind.CopyOnSuccess) →
      allocCount Δ = 0 ∧ deallocCount Δ = 0) ∧
    ((src.isAddress = true ∧
        src.Consumption = CastConsumptionKind.CopyOnSuccess) →
      ∃ pre v w Δrec Δsome args Δrest,
        Δ = pre ++
            [Instr.allocStack src.Value.type.getObjectType v,
             Instr.copyAddr src.Value v false,
             Instr.takeEnumDataAddr v w] ++ Δrec ++
            [Instr.deallocStack v] ++ Δsome ++
            [Instr.branch s.nextBlock args] ++ Δrest ∧
        allocCount pre = 0 ∧ deallocCount pre = 0 ∧
        allocCount Δrec = 0 ∧ deallocCount Δrec = 0 ∧
        allocCount Δsome = 0 ∧ deallocCount Δsome = 0 ∧
        branchCount Δsome = 0 ∧
        allocCount Δrest = 0 ∧ deallocCount Δrest = 0 ∧
        allocCount Δ = 1 ∧ deallocCount Δ = 1) := by
  constructor
  · intro hn
    have hsafe : src.isAddress = false ∨ src.shouldTake = true := by
      by_cases hA : src.isAddress = true
      · refine Or.inr ((shouldTake_true_iff src).mpr fun hC => hn ⟨hA, hC⟩)
      · exact Or.inl (by simpa using hA)
    have hns := emitOptionalToOptional_noStack src objTy tgt hsafe
      (fun os T2 _ hs2 => emit_noStack os T2 hs2) s
    rw [hrun] at hns
    exact hns
  · rintro ⟨haddr, hcopy⟩
    have htake : src.shouldTake = false := by
      simp [Source.shouldTake, hcopy]
    rw [emitOptionalToOptional] at hrun
    -- contBB
    obtain ⟨contBB, sA, oA, rest1, hA, hrun, hsp1⟩ := bind_run_ok_decomp hrun
    rw [splitBlock_run] at hA
    simp only [Prod.mk.injEq, Except.ok.injEq] at hA
    obtain ⟨hA1, -, hA3⟩ := hA
    -- noneBB
    obtain ⟨noneBB, sB, oB, rest2, hB, hrun, hsp2⟩ := bind_run_ok_decomp hrun
    rw [splitBlock_run] at hB
    simp only [Prod.mk.injEq, Except.ok.injEq] at hB
    obtain ⟨-, -, hB3⟩ := hB
    -- someBB
    obtain ⟨someBB, sC, oC, rest3, hC, hrun, hsp3⟩ := bind_run_ok_decomp hrun
    rw [splitBlock_run] at hC
    simp only [Prod.mk.injEq, Except.ok.injEq] at hC
    obtain ⟨-, -, hC3⟩ := hC
    -- switch
    obtain ⟨uD, sD, oD, rest4, hD, hrun, hsp4⟩ := bind_run_ok_decomp hrun
    rw [emitSwitchAddr_run src _ _ haddr] at hD
    simp only [Prod.mk.injEq, Except.ok.injEq] at hD
    obtain ⟨-, -, hD3⟩ := hD
    -- insertion point of the Some block
    obtain ⟨uE, sE, oE, rest5, hE, hrun, hsp5⟩ := bind_run_ok_decomp hrun
    rw [setInsertionPoint_run] at hE
    simp only [Prod.mk.injEq, Except.ok.injEq] at hE
    obtain ⟨-, -, hE3⟩ := hE
    -- prepareForEmitSome
    obtain ⟨⟨objectTarget, state⟩, sF, oF, rest6, hF, hrun, hsp6⟩ :=
      bind_run_ok_decomp hrun
    have hFclean : cleanP oF := by
      have h0 := prepareForEmitSome_clean tgt sE
      rw [hF] at h0
      exact h0
    -- formObjectSource
    obtain ⟨⟨sourceTemp, objectValue, objectConsumption⟩, sG, oG, rest7,
      hG, hrun, hsp7⟩ := bind_run_ok_decomp hrun
    rw [formObjectSource_copy_run src _ _ haddr htake] at hG
    simp only [Prod.mk.injEq, Except.ok.injEq] at hG
    obtain ⟨⟨hG6, hG8, hG9⟩, -, hG3⟩ := hG
    -- recursive emit of the payload conversion
    obtain ⟨resultObject, sH, oH, rest8, hH, hrun, hsp8⟩ :=
      bind_run_ok_decomp hrun
    have hHns : noStackP oH := by
      have h9 := emit_noStack ⟨objectValue, objTy, objectConsumption⟩
        objectTarget (Or.inr (by simp [Source.shouldTake, ← hG9])) sG
      rw [hH] at h9
      exact h9
    -- deallocate the scoped temporary
    rw [← hG6] at hrun
    obtain ⟨uI, sI, oI, rest9, hI, hrun, hsp9⟩ := bind_run_ok_decomp hrun
    rw [deallocSourceTemp_some_run] at hI
    simp only [Prod.mk.injEq, Except.ok.injEq] at hI
    obtain ⟨-, -, hI3⟩ := hI
    -- emitSome
    obtain ⟨result, sJ, oJ, rest10, hJ, hrun, hsp10⟩ := bind_run_ok_decomp hrun
    have hJclean : cleanP oJ := by
      have h0 := emitSome_clean resultObject tgt state sI
      rw [hJ] at h0
      exact h0
    -- mode check
    obtain ⟨uK, sK, oK, rest11, hK, hrun, hsp11⟩ := bind_run_ok_decomp hrun
    obtain ⟨-, hK3⟩ := check_run_ok hK
    -- branch of the Some block to the continuation
    obtain ⟨uL, sL, oL, rest12, hL, hrun, hsp12⟩ := bind_run_ok_decomp hrun
    obtain ⟨args1, hL2⟩ := branchToCont_run tgt contBB result sK
    rw [hL2] at hL
    simp only [Prod.mk.injEq, Except.ok.injEq] at hL
    obtain ⟨-, -, hL3⟩ := hL
    -- insertion point of the None block
    obtain ⟨uM, sM, oM, rest13, hM, hrun, hsp13⟩ := bind_run_ok_decomp hrun
    rw [setInsertionPoint_run] at hM
    simp only [Prod.mk.injEq, Except.ok.injEq] at hM
    obtain ⟨-, -, hM3⟩ := hM
    -- emitNone
    obtain ⟨nresult, sN, oN, rest14, hN, hrun, hsp14⟩ := bind_run_ok_decomp hrun
    have hNclean : cleanP oN := by
      have h0 := emitNone_clean tgt sM
      rw [hN] at h0
      exact h0
    -- mode check
    obtain ⟨uO, sO, oO, rest15, hO, hrun, hsp15⟩ := bind_run_ok_decomp hrun
    obtain ⟨-, hO3⟩ := check_run_ok hO
    -- branch of the None block to the continuation
    obtain ⟨uP, sP, oP, rest16, hP, hrun, hsp16⟩ := bind_run_ok_decomp hrun
    obtain ⟨args2, hP2⟩ := branchToCont_run tgt contBB nresult sO
    rw [hP2] at hP
    simp only [Prod.mk.injEq, Except.ok.injEq] at hP
    obtain ⟨-, -, hP3⟩ := hP
    -- insertion point of the continuation block
    obtain ⟨uQ, sQ, oQ, oFin, hQ, hrun, hsp17⟩ := bind_run_ok_decomp hrun
    rw [setInsertionPoint_run] at hQ
    simp only [Prod.mk.injEq, Except.ok.injEq] at hQ
    obtain ⟨-, -, hQ3⟩ := hQ
    -- continuation value
    have hFinclean : cleanP oFin := by
      have h0 := emitContValue_clean tgt contBB sQ
      rw [hrun] at h0
      exact h0
    -- assemble
    subst hsp1 hsp2 hsp3 hsp4 hsp5 hsp6 hsp7 hsp8 hsp9 hsp10 hsp11 hsp12
    subst hsp13 hsp14 hsp15 hsp16 hsp17
    rw [← hA3, ← hB3, ← hC3, ← hD3, ← hE3, ← hG3, ← hI3, hK3, ← hL3,
      ← hM3, hO3, ← hP3, ← hQ3, ← hA1]
    refine ⟨[Instr.switchEnumAddr src.Value someBB noneBB,
        Instr.insertPoint someBB] ++ oF,
      ⟨sF.nextValue, ⟨src.Value.type.ty, true⟩⟩,
      ⟨sF.nextValue + 1, ⟨(SILType.getEnumElementType src.Value.type).ty,
        true⟩⟩,
      oH, oJ, args1,
      [Instr.insertPoint noneBB] ++ oN ++ [Instr.branch s.nextBlock args2,
        Instr.insertPoint s.nextBlock] ++ oFin,
      ?_, ?_, ?_, ?_, ?_, ?_, ?_, ?_, ?_, ?_, ?_, ?_⟩
    · simp [List.append_assoc]
    · simp [isAllocInstr, hFclean.1]
    · simp [isDeallocInstr, hFclean.2.1]
    · exact hHns.1
    · exact hHns.2
    · exact hJclean.1
    · exact hJclean.2.1
    · exact hJclean.2.2
    · simp [isAllocInstr, hNclean.1, hFinclean.1]
    · simp [isDeallocInstr, hNclean.2.1, hFinclean.2.1]
    · simp [isAllocInstr, hFclean.1, hHns.1, hJclean.1, hNclean.1,
        hFinclean.1]
    · simp [isDeallocInstr, hFclean.2.1, hHns.2, hJclean.2.1,
        hNclean.2.1, hFinclean.2.1]

def srcW9 : Source :=
  ⟨⟨0, ⟨Ty.opt (Ty.cls [0]), true⟩⟩, Ty.opt (Ty.cls [0]),
    CastConsumptionKind.CopyOnSuccess⟩

def tgtW9 : Target :=
  ⟨some ⟨1, ⟨Ty.opt (Ty.cls [0]), true⟩⟩, ⟨Ty.opt (Ty.cls [0]), true⟩,
    Ty.opt (Ty.cls [0])⟩

def rW9 : Source :=
  ⟨⟨1, ⟨Ty.opt (Ty.cls [0]), true⟩⟩, Ty.opt (Ty.cls [0]),
    CastConsumptionKind.TakeAlways⟩

def deltaW9 : List Instr :=
  [Instr.switchEnumAddr ⟨0, ⟨Ty.opt (Ty.cls [0]), true⟩⟩ 2 1,
   Instr.insertPoint 2,
   Instr.initEnumDataAddr ⟨1, ⟨Ty.opt (Ty.cls [0]), true⟩⟩
     ⟨2, ⟨Ty.cls [0], true⟩⟩,
   Instr.allocStack ⟨Ty.opt (Ty.cls [0]), false⟩
     ⟨3, ⟨Ty.opt (Ty.cls [0]), true⟩⟩,
   Instr.copyAddr ⟨0, ⟨Ty.opt (Ty.cls [0]), true⟩⟩
     ⟨3, ⟨Ty.opt (Ty.cls [0]), true⟩⟩ false,
   Instr.takeEnumDataAddr ⟨3, ⟨Ty.opt (Ty.cls [0]), true⟩⟩
     ⟨4, ⟨Ty.cls [0], true⟩⟩,
   Instr.copyInto ⟨4, ⟨Ty.cls [0], true⟩⟩ ⟨2, ⟨Ty.cls [0], true⟩⟩ true,
   Instr.deallocStack ⟨3, ⟨Ty.opt (Ty.cls [0]), true⟩⟩,
   Instr.injectEnumAddr ⟨1, ⟨Ty.opt (Ty.cls [0]), true⟩⟩ true,
   Instr.branch 0 [],
   Instr.insertPoint 1,
   Instr.injectEnumAddr ⟨1, ⟨Ty.opt (Ty.cls [0]), true⟩⟩ false,
   Instr.branch 0 [],
   Instr.insertPoint 0]

theorem claim_C9_witness :
    emitOptionalToOptional srcW9 (Ty.cls [0]) tgtW9 ⟨2, 0⟩ =
      (Except.ok rW9, ⟨5, 3⟩, deltaW9) ∧
    (srcW9.isAddress = true ∧
      srcW9.Consumption = CastConsumptionKind.CopyOnSuccess) ∧
    ∃ pre v w Δrec Δsome args Δrest,
      deltaW9 = pre ++
          [Instr.allocStack srcW9.Value.type.getObjectType v,
           Instr.copyAddr srcW9.Value v false,
           Instr.takeEnumDataAddr v w] ++ Δrec ++
          [Instr.deallocStack v] ++ Δsome ++
          [Instr.branch (⟨2, 0⟩ : EmitState).nextBlock args] ++ Δrest ∧
      allocCount pre = 0 ∧ deallocCount pre = 0 ∧
      allocCount Δrec = 0 ∧ deallocCount Δrec = 0 ∧
      allocCount Δsome = 0 ∧ deallocCount Δsome = 0 ∧
      branchCount Δsome = 0 ∧
      allocCount Δrest = 0 ∧ deallocCount Δrest = 0 ∧
      allocCount deltaW9 = 1 ∧ deallocCount deltaW9 = 1 := by
  have hrun : emitOptionalToOptional srcW9 (Ty.cls [0]) tgtW9 ⟨2, 0⟩ =
      (Except.ok rW9, ⟨5, 3⟩, deltaW9) := by
    simp [srcW9, tgtW9, rW9, deltaW9, emitOptionalToOptional, emit,
      emitSameType, ownedScalarSource, copyOrStoreIntoAddr,
      prepareForEmitSome, formObjectSource, deallocSourceTemp, emitSome,
      emitNone, branchToCont, emitContValue, emitSwitch, EmitM.bind,
      EmitM.pure, check, mkAddressTarget, mkScalarTarget,
      Target.asAddressSource, Target.asScalarSource, getOwnedScalar,
      putOwnedScalar, loadOwnedValue, setInsertionPoint, emitRetainValue,
      emitLoadOfCopy, emitStoreOfCopy, emitCopyInto, createUpcast,
      createAllocStack, createDeallocStack, createCopyAddr,
      createUncheckedTakeEnumDataAddr, createInitEnumDataAddr,
      createSwitchEnumAddr, createSwitchEnum, createBranch, createEnum,
      createInjectEnumAddr, createSILArgument, splitBlockForFallthrough,
      freshValue, emitInstr, throwErr, Source.isAddress, Source.shouldTake,
      SILType.isAddress, SILType.getObjectType, SILType.getEnumElementType,
      getAnyOptionalObjectType, Target.isAddress]
  refine ⟨hrun, by decide, ?_⟩
  exact (claim_C9_scoped_temporary srcW9 (Ty.cls [0]) tgtW9 ⟨2, 0⟩ rW9
    ⟨5, 3⟩ deltaW9 hrun).2 (by decide)
